import Mathlib

/-!
Verification of the tplcc lexer and preprocessor front-end.

This file gives a shallow embedding, in Lean 4, of the parts of the tplcc
repository that the claims under audit talk about:

* the token lexer of `src/tplcc/Lexer.cpp` (keyword table, number-literal
  scanner, string/character-literal scanner, punctuator matching), running
  over the byte-string scanner used by the repository's tests
  (`SimpleStringScanner`), and
* the character-level preprocessor of `src/tplcc/preprocessor.h`
  (`CodeBuffer`, `PPScanner` with its section stack and lookahead scanners,
  directive parsing, macro expansion with caching, `PPImpl::get`, and the
  public `Preprocessor` wrapper).

Bytes are modelled as `Nat`, characters handed to/returned from scanners as
`Int` with `-1` playing C's `EOF`.  C++ strings are byte lists.  Loops whose
termination depends on scanner progress are given explicit fuel; an
exhausted fuel returns `none` and concrete runs are evaluated with ample
fuel.  `std::map` / `std::set` are association lists with `insert` keeping
the existing entry (as the C++ `insert` member does).
-/

set_option autoImplicit false

/-- Bytes of a Lean string literal, used to write C++ `std::string` values. -/
def strBytes (s : String) : List Nat := s.toList.map Char.toNat

/-- Convert a scanner character (an `int` in C++) to a byte the way
`std::string::push_back(char)` truncates it; `(char)EOF` becomes byte 255. -/
def byteOfChar (c : Int) : Nat := (c.emod 256).toNat

/-- Decimal digits of a number, used for `std::format` of arity counts. -/
def natDigits (n : Nat) : List Nat :=
  (Nat.toDigits 10 n).map Char.toNat

/-- Diagnostic record: `Error{{start, end}, message, hint}` of the latest
draft (`preprocessor.h`, `Lexer.cpp`). -/
structure Error where
  rangeStart : Nat
  rangeEnd : Nat
  message : List Nat
  hint : List Nat
  deriving DecidableEq, Repr

/-! ## Character classification (C locale, as used by the sources) -/

/-- The lexer's uses of `std::isspace` (C locale). -/
def isSpaceStd (c : Int) : Bool := c = 32 || (9 ≤ c && c ≤ 13)

/-- The sources' uses of `std::isdigit` (C locale). -/
def isDigitStd (c : Int) : Bool := 48 ≤ c && c ≤ 57

/-- The sources' uses of `std::isalpha` (C locale). -/
def isAlphaStd (c : Int) : Bool := (65 ≤ c && c ≤ 90) || (97 ≤ c && c ≤ 122)

/-- The sources' uses of `std::isalnum` (C locale). -/
def isAlnumStd (c : Int) : Bool := isDigitStd c || isAlphaStd c

/-! ## Lexer: state and scanner (`SimpleStringScanner` of the tests) -/

/-- State of the lexer: its string-backed scanner plus the error sink the
`Lexer` reports to (`ReportErrorStub` appends to a vector). -/
structure LexState where
  input : List Nat
  cursor : Nat
  errors : List Error
  deriving DecidableEq, Repr

/-- SimpleStringScanner::peek: current byte, or `EOF` at end of input. -/
def lexPeek (s : LexState) : Int :=
  if s.cursor < s.input.length then (s.input.getD s.cursor 0 : Int) else -1

/-- SimpleStringScanner::reachedEndOfInput.  The source compares
`cursor == input.size()`; the cursor never moves past the end (every
advance is guarded by `cursor < size`), so `≤` is used here to make the
scanning loops below total on all states. -/
def lexREOI (s : LexState) : Bool := s.input.length ≤ s.cursor

/-- SimpleStringScanner::get: consume one byte, or `EOF` without moving. -/
def lexGet (s : LexState) : Int × LexState :=
  if s.cursor < s.input.length then
    ((s.input.getD s.cursor 0 : Int), { s with cursor := s.cursor + 1 })
  else (-1, s)

/-- SimpleStringScanner::peekN: the next `n` bytes, padded with byte 255
(`(char)EOF` pushed into a `std::string`) past the end of input. -/
def lexPeekN (s : LexState) (n : Nat) : List Nat :=
  (List.range n).map fun i =>
    if s.cursor + i < s.input.length then s.input.getD (s.cursor + i) 0 else 255

/-- SimpleStringScanner::ignore. -/
def lexIgnore (s : LexState) : LexState :=
  if s.cursor < s.input.length then { s with cursor := s.cursor + 1 } else s

/-- SimpleStringScanner::ignoreN. -/
def lexIgnoreN (s : LexState) : Nat → LexState
  | 0 => s
  | n + 1 => if lexREOI s then s else lexIgnoreN (lexIgnore s) n

/-- Append a diagnostic to the sink (`errOut.reportsError`). -/
def lexReport (s : LexState) (e : Error) : LexState :=
  { s with errors := s.errors ++ [e] }

/-- Offset of the scanner (`SimpleStringScanner::offset`). -/
def lexOffset (s : LexState) : Nat := s.cursor

/-- Read bytes while the peeked character satisfies `p`, collecting them the
way `buffer.push_back(scanner.get())` does.  Internal fuel: the loop can run
at most once per remaining input byte (and `p` rejects `EOF`). -/
def readWhileAux (p : Int → Bool) : Nat → LexState → List Nat × LexState
  | 0, s => ([], s)
  | fuel + 1, s =>
    if p (lexPeek s) then
      let (c, s') := lexGet s
      let (r, s'') := readWhileAux p fuel s'
      (byteOfChar c :: r, s'')
    else ([], s)

/-- Total wrapper for `readWhileAux` with sufficient fuel (each iteration
consumes a byte, except possibly one final `EOF` iteration when `p (-1)`). -/
def readWhileT (p : Int → Bool) (s : LexState) : List Nat × LexState :=
  readWhileAux p (s.input.length + 1) s

/-- Skip bytes while the peeked character satisfies `p` (loops of the form
`while (p(scanner.peek())) scanner.ignore();`). -/
def skipWhileAux (p : Int → Bool) : Nat → LexState → LexState
  | 0, s => s
  | fuel + 1, s => if p (lexPeek s) then skipWhileAux p fuel (lexIgnore s) else s

/-- Total wrapper for `skipWhileAux`. -/
def skipWhileT (p : Int → Bool) (s : LexState) : LexState :=
  skipWhileAux p (s.input.length + 1) s

/-! ## Lexer: tokens and keyword table (`Lexer.h`, `Lexer.cpp`) -/

/-- The 36 values of `enum class Keyword` in `Lexer.h` (note that the
keyword *table* in `Lexer.cpp` maps only 35 of them). -/
inductive Keyword
  | kBool | kComplex | kImaginary
  | kAuto | kBreak | kCase | kChar | kConst | kContinue | kDefault | kDo
  | kDouble | kElse | kEnum | kExtern | kFloat | kFor | kGoto | kIf
  | kInline | kInt | kLong | kRegister | kRestrict | kReturn | kSigned
  | kSizeof | kStatic | kStruct | kSwitch | kTypedef | kUnion | kUnsigned
  | kVoid | kVolatile | kWhile
  deriving DecidableEq, Repr

/-- Source `CharSequenceLiteralPrefix` (`Lexer.h`): no marker, or `L`. -/
inductive CharSeqPrefixKind
  | None
  | L
  deriving DecidableEq, Repr

/-- The `Token` variant of `Lexer.h`. -/
inductive Token
  | punctuator (str : List Nat)
  | ident (str : List Nat)
  | numberLiteral (str : List Nat)
  | stringLiteral (str : List Nat) (prefixTag : CharSeqPrefixKind)
  | characterLiteral (str : List Nat) (prefixTag : CharSeqPrefixKind)
  | keyword (k : Keyword)
  | charTok (c : Nat)
  | endOfInput
  deriving DecidableEq, Repr

/-- The static `keywordPairs` table of `Lexer.cpp` lines 73-109, in its
source order (which is sorted by byte comparison).  It has 35 entries:
`"char"` does not appear in the source table. -/
def keywordPairs : List (List Nat × Keyword) :=
  [ (strBytes "_Bool", .kBool)
  , (strBytes "_Complex", .kComplex)
  , (strBytes "_Imaginary", .kImaginary)
  , (strBytes "auto", .kAuto)
  , (strBytes "break", .kBreak)
  , (strBytes "case", .kCase)
  , (strBytes "const", .kConst)
  , (strBytes "continue", .kContinue)
  , (strBytes "default", .kDefault)
  , (strBytes "do", .kDo)
  , (strBytes "double", .kDouble)
  , (strBytes "else", .kElse)
  , (strBytes "enum", .kEnum)
  , (strBytes "extern", .kExtern)
  , (strBytes "float", .kFloat)
  , (strBytes "for", .kFor)
  , (strBytes "goto", .kGoto)
  , (strBytes "if", .kIf)
  , (strBytes "inline", .kInline)
  , (strBytes "int", .kInt)
  , (strBytes "long", .kLong)
  , (strBytes "register", .kRegister)
  , (strBytes "restrict", .kRestrict)
  , (strBytes "return", .kReturn)
  , (strBytes "signed", .kSigned)
  , (strBytes "sizeof", .kSizeof)
  , (strBytes "static", .kStatic)
  , (strBytes "struct", .kStruct)
  , (strBytes "switch", .kSwitch)
  , (strBytes "typedef", .kTypedef)
  , (strBytes "union", .kUnion)
  , (strBytes "unsigned", .kUnsigned)
  , (strBytes "void", .kVoid)
  , (strBytes "volatile", .kVolatile)
  , (strBytes "while", .kWhile) ]

/-- Lexicographic byte comparison, the `operator<` used between a
`const char*` table entry and the looked-up `std::string`. -/
def strLt : List Nat → List Nat → Bool
  | [], [] => false
  | [], _ :: _ => true
  | _ :: _, [] => false
  | a :: as, b :: bs => if a < b then true else if b < a then false else strLt as bs

/-- Lexer::findKeyword (`Lexer.cpp` lines 504-520): `std::lower_bound` over
the sorted `keywordPairs` table — the first entry not `<` the identifier —
followed by an equality check. -/
def findKeyword (str : List Nat) : Option Keyword :=
  match keywordPairs.find? (fun p => !strLt p.1 str) with
  | some p => if p.1 = str then some p.2 else none
  | none => none

/-- Lexer::readIdentString (`Lexer.cpp` lines 493-502). -/
def readIdentString (s : LexState) : List Nat × LexState :=
  readWhileT (fun c => isDigitStd c || isAlphaStd c || c = 95) s

/-! ## Lexer: number literal scanner (`Lexer.cpp` lines 111-347) -/

/-- Source `LiteralNumberBase`. -/
inductive LiteralNumberBase
  | Octal
  | Decimal
  | Hexadecimal
  deriving DecidableEq, Repr

/-- Source `isOctalDigit`, applied to stored buffer bytes. -/
def isOctalDigit (ch : Nat) : Bool := 48 ≤ ch && ch ≤ 55

/-- Source `isValidDigit`. -/
def isValidDigit (ch : Int) (numberBase : LiteralNumberBase) : Bool :=
  if numberBase = LiteralNumberBase.Octal then 48 ≤ ch && ch ≤ 55
  else if numberBase = LiteralNumberBase.Decimal then isDigitStd ch
  else isDigitStd ch || (97 ≤ ch && ch ≤ 102) || (65 ≤ ch && ch ≤ 70)

/-- Source `isFirstCharOfExponentPart`. -/
def isFirstCharOfExponentPart (ch : Int) (numberBase : LiteralNumberBase) : Bool :=
  if numberBase = LiteralNumberBase.Decimal then ch = 101 || ch = 69
  else ch = 112 || ch = 80

/-- Source `UNSIGNED_INT_SUFFIX`. -/
def UNSIGNED_INT_SUFFIX : List (List Nat) := [strBytes "u", strBytes "U"]

/-- Source `LONG_INT_SUFFIX`; the order matters (`ll`/`LL` before `l`/`L`). -/
def LONG_INT_SUFFIX : List (List Nat) :=
  [strBytes "ll", strBytes "LL", strBytes "l", strBytes "L"]

/-- Source `TYPE_FLOAT_AND_DOUBLE_SUFFIX`. -/
def TYPE_FLOAT_AND_DOUBLE_SUFFIX : List (List Nat) :=
  [strBytes "F", strBytes "f", strBytes "l", strBytes "L"]

/-- Does `s` start with the byte sequence `pre`?  This is the
`str.substr(offset).rfind(suffix, 0) == 0` test of `matchesSuffix`. -/
def strStartsWith : List Nat → List Nat → Bool
  | _, [] => true
  | [], _ :: _ => false
  | a :: as, b :: bs => a = b && strStartsWith as bs

/-- Source `matchesSuffix` (`Lexer.cpp` lines 117-123): the first alternative
that is a leading substring of `str` from `offset` on. -/
def matchesSuffix (str : List Nat) (offset : Nat) (validAlternatives : List (List Nat)) :
    Option (List Nat) :=
  validAlternatives.find? fun suffix => strStartsWith (str.drop offset) suffix

/-- One pass of the inner `j`-loop of `NumberLiteralScanner::scanSuffixes`
(`Lexer.cpp` lines 183-200).  Every suffix class `j` is visited in order; a
class already seen, or a class that does not match at the current position,
jumps to the `fail:` label (`none`).  A match advances the position. -/
def suffixInnerPass : List (List (List Nat)) → List Bool → List Nat → Nat →
    Option (Nat × List Bool)
  | [], [], _, i => some (i, [])
  | alts :: rest, seen :: seenRest, buffer, i =>
    if seen then none
    else
      match matchesSuffix buffer i alts with
      | some m =>
        match suffixInnerPass rest seenRest buffer (i + m.length) with
        | some (i', seen') => some (i', true :: seen')
        | none => none
      | none => none
  | _, _, _, _ => none

/-- The outer `for (i = beginIndexOfSuffix; i < buffer.size();)` loop of
`scanSuffixes`.  Fuel: the position grows on every successful inner pass. -/
def suffixOuterLoop : Nat → List (List (List Nat)) → List Bool → List Nat → Nat → Bool
  | 0, _, _, _, _ => false
  | fuel + 1, lists, seen, buffer, i =>
    if i < buffer.length then
      match suffixInnerPass lists seen buffer i with
      | some (i', seen') => suffixOuterLoop fuel lists seen' buffer i'
      | none => false
    else true

/-- NumberLiteralScanner::scanSuffixes (`Lexer.cpp` lines 175-213): read the
trailing alphabetic run into the buffer, then validate it with the inner /
outer loops above; on failure report the invalid-suffix diagnostic. -/
def scanSuffixes (availableSuffixes : List (List (List Nat))) (startOffset : Nat)
    (buffer : List Nat) (s : LexState) : Bool × List Nat × LexState :=
  let beginIndexOfSuffix := buffer.length
  let (run, s₁) := readWhileT isAlphaStd s
  let buffer := buffer ++ run
  if suffixOuterLoop (buffer.length + 1) availableSuffixes
      (availableSuffixes.map fun _ => false) buffer beginIndexOfSuffix then
    (true, buffer, s₁)
  else
    let numberLiteralNoSuffix := buffer.take beginIndexOfSuffix
    let invalidSuffix := buffer.drop beginIndexOfSuffix
    (false, buffer,
      lexReport s₁
        { rangeStart := startOffset
          rangeEnd := lexOffset s₁
          message := strBytes "\"" ++ invalidSuffix ++
            strBytes "\" is not a valid suffix for the number literal " ++
            numberLiteralNoSuffix ++ strBytes "."
          hint := strBytes "invalid suffix." })

/-- NumberLiteralScanner::scanIntegerSuffixes. -/
def scanIntegerSuffixes (startOffset : Nat) (buffer : List Nat) (s : LexState) :
    Bool × List Nat × LexState :=
  scanSuffixes [UNSIGNED_INT_SUFFIX, LONG_INT_SUFFIX] startOffset buffer s

/-- NumberLiteralScanner::scanDoubleAndFloatSuffixes. -/
def scanDoubleAndFloatSuffixes (startOffset : Nat) (buffer : List Nat) (s : LexState) :
    Bool × List Nat × LexState :=
  scanSuffixes [TYPE_FLOAT_AND_DOUBLE_SUFFIX] startOffset buffer s

/-- NumberLiteralScanner::scanExponentPart (`Lexer.cpp` lines 223-249). -/
def scanExponentPart (startOffset : Nat) (buffer : List Nat) (s : LexState) :
    Bool × List Nat × LexState :=
  let (e, s) := lexGet s
  let buffer := buffer ++ [byteOfChar e]
  let (buffer, s) :=
    if lexPeek s = 43 || lexPeek s = 45 then
      let (c, s) := lexGet s
      (buffer ++ [byteOfChar c], s)
    else (buffer, s)
  let (digits, s) := readWhileT isDigitStd s
  let buffer := buffer ++ digits
  if digits.isEmpty then
    let (run, s) := readWhileT isAlnumStd s
    let buffer := buffer ++ run
    (false, buffer,
      lexReport s
        { rangeStart := startOffset
          rangeEnd := lexOffset s
          message := strBytes "Exponent part of number literal " ++ buffer ++
            strBytes " has no digit."
          hint := strBytes "Exponent has no digit." })
  else (true, buffer, s)

/-- NumberLiteralScanner::scanAndCreateIntegerLiteral. -/
def scanAndCreateIntegerLiteral (startOffset : Nat) (buffer : List Nat) (s : LexState) :
    Option (List Nat) × LexState :=
  match scanIntegerSuffixes startOffset buffer s with
  | (true, buffer, s) => (some buffer, s)
  | (false, _, s) => (none, s)

/-- NumberLiteralScanner::scanAndCreateFloatLiteral. -/
def scanAndCreateFloatLiteral (hasExponentPart : Bool) (startOffset : Nat)
    (buffer : List Nat) (s : LexState) : Option (List Nat) × LexState :=
  let (expOk, buffer, s) :=
    if hasExponentPart then scanExponentPart startOffset buffer s
    else (true, buffer, s)
  if !expOk then (none, s)
  else
    match scanDoubleAndFloatSuffixes startOffset buffer s with
    | (true, buffer, s) => (some buffer, s)
    | (false, _, s) => (none, s)

/-- NumberLiteralScanner::scan (`Lexer.cpp` lines 264-347), returning the
spelling of the literal or `none` after a reported error. -/
def numScan (s : LexState) : Option (List Nat) × LexState :=
  let startOffset := lexOffset s
  let (buffer, numberBase, s) :=
    if lexPeek s = 48 then
      let (c, s) := lexGet s
      if lexPeek s = 120 || lexPeek s = 88 then
        let (x, s) := lexGet s
        ([byteOfChar c, byteOfChar x], LiteralNumberBase.Hexadecimal, s)
      else ([byteOfChar c], LiteralNumberBase.Decimal, s)
    else ([], LiteralNumberBase.Decimal, s)
  let (intPart, s) := readWhileT (fun c => isValidDigit c numberBase) s
  let buffer := buffer ++ intPart
  if lexPeek s ≠ 46 then
    if isFirstCharOfExponentPart (lexPeek s) numberBase then
      scanAndCreateFloatLiteral true startOffset buffer s
    else if buffer.headD 0 = 48 && numberBase ≠ LiteralNumberBase.Hexadecimal &&
        buffer.any (fun c => !isOctalDigit c) then
      (none,
        lexReport s
          { rangeStart := startOffset
            rangeEnd := lexOffset s
            message := strBytes "Invalid octal number."
            hint := strBytes "Invalid octal number." })
    else scanAndCreateIntegerLiteral startOffset buffer s
  else
    let (dot, s) := lexGet s
    let buffer := buffer ++ [byteOfChar dot]
    let (fracPart, s) := readWhileT (fun c => isValidDigit c numberBase) s
    let buffer := buffer ++ fracPart
    let hasFractionPart := !fracPart.isEmpty
    let hasExponentPart := isFirstCharOfExponentPart (lexPeek s) numberBase
    if numberBase = LiteralNumberBase.Hexadecimal && !hasExponentPart then
      let (run, s) := readWhileT isAlnumStd s
      let buffer := buffer ++ run
      (none,
        lexReport s
          { rangeStart := startOffset
            rangeEnd := lexOffset s
            message := strBytes "Hexadecimal floating point " ++ buffer ++
              strBytes " has no exponent part."
            hint := strBytes "Hex float has no exponent part." })
    else if hasFractionPart || hasExponentPart then
      scanAndCreateFloatLiteral hasExponentPart startOffset buffer s
    else scanAndCreateIntegerLiteral startOffset buffer s

/-! ## Lexer: string and character literals (`Lexer.cpp` lines 350-407) -/

/-- Result of one `Lexer::next()` call: a token (possibly `none` after a
recoverable error), or a thrown fatal condition. -/
inductive LexOut
  | tok (t : Option Token)
  | fatal
  deriving DecidableEq, Repr

/-- Source `getCharSequencePrefix` (`Lexer.cpp` lines 354-359). -/
def getCharSequencePrefixTag (p : List Nat) : Option CharSeqPrefixKind :=
  if p = strBytes "L" then some CharSeqPrefixKind.L
  else if p = [] then some CharSeqPrefixKind.None
  else none

/-- After a `get`, the input is unchanged. -/
theorem lexGet_snd_input (s : LexState) : (lexGet s).2.input = s.input := by
  simp only [lexGet]; split <;> rfl

/-- A `get` never moves the cursor backwards. -/
theorem lexGet_snd_cursor_ge (s : LexState) : s.cursor ≤ (lexGet s).2.cursor := by
  simp only [lexGet]; split <;> simp

/-- A `get` before the end of input advances the cursor by one. -/
theorem lexGet_snd_cursor_of_lt (s : LexState) (h : s.cursor < s.input.length) :
    (lexGet s).2.cursor = s.cursor + 1 := by
  simp only [lexGet]; rw [if_pos h]

/-- The body-consuming loop of `Lexer::scanCharSequenceContent`
(`Lexer.cpp` lines 366-373): consume until the quote, a `'\n'`, or end of
input; a backslash makes the following `get` unconditional, so the byte
after it (a `(char)EOF`, i.e. 255, at the very end) is also pushed. -/
def scanSeqLoopAux (quote : Int) : Nat → LexState → List Nat → List Nat × LexState
  | 0, s, output => (output, s)
  | fuel + 1, s, output =>
    if ¬ lexREOI s ∧ lexPeek s ≠ quote ∧ lexPeek s ≠ 10 then
      if lexPeek s = 92 then
        scanSeqLoopAux quote fuel ((lexGet (lexGet s).2).2)
          (output ++ [byteOfChar (lexGet s).1, byteOfChar (lexGet (lexGet s).2).1])
      else
        scanSeqLoopAux quote fuel (lexGet s).2 (output ++ [byteOfChar (lexGet s).1])
    else (output, s)

/-- The loop with its sufficient internal fuel: every iteration requires
`cursor < length` and advances the cursor. -/
def scanSeqLoop (quote : Int) (s : LexState) (output : List Nat) : List Nat × LexState :=
  scanSeqLoopAux quote (s.input.length + 1 - s.cursor) s output

/-- Lexer::scanCharSequenceContent (`Lexer.cpp` lines 362-387).  The first
component is `none` when the fatal condition is thrown (after the
no-ending-quote diagnostic has been reported); otherwise it is the raw body
and the ending quote has been consumed. -/
def scanCharSequenceContent (quote : Int) (s : LexState) : Option (List Nat) × LexState :=
  let startOffset := lexOffset s
  let s := lexIgnore s
  let (output, s) := scanSeqLoop quote s []
  if lexREOI s || lexPeek s = 10 then
    (none,
      lexReport s
        { rangeStart := startOffset
          rangeEnd := lexOffset s
          message :=
            if quote = 34 then strBytes "The string literal has no ending quote."
            else strBytes "The character literal has no ending quote."
          hint := strBytes "No ending quote." })
  else (some output, lexIgnore s)

/-- Lexer::scanCharSequence (`Lexer.cpp` lines 389-407). -/
def scanCharSequence (quote : Int) (prefixStr : List Nat) (startOffset : Nat)
    (s : LexState) : LexOut × LexState :=
  match getCharSequencePrefixTag prefixStr with
  | some tag =>
    match scanCharSequenceContent quote s with
    | (none, s) => (LexOut.fatal, s)
    | (some body, s) =>
      (LexOut.tok (some (if quote = 34 then Token.stringLiteral body tag
                         else Token.characterLiteral body tag)), s)
  | none =>
    match scanCharSequenceContent quote s with
    | (none, s) => (LexOut.fatal, s)
    | (some _, s) =>
      (LexOut.tok none,
        lexReport s
          { rangeStart := startOffset
            rangeEnd := lexOffset s
            message :=
              if quote = 34 then
                strBytes "\"" ++ prefixStr ++
                  strBytes "\" is not a valid prefix for a string literal."
              else
                strBytes "\"" ++ prefixStr ++
                  strBytes "\" is not a valid prefix for a character literal."
            hint := strBytes "Invalid prefix." })

/-! ## Lexer: punctuators and dispatch (`Lexer.cpp` lines 19-46, 409-491) -/

/-- The 49 punctuators in the order of the `std::istringstream` of
`allPunctuators` (`Lexer.cpp` lines 19-44). -/
def punctuatorStreamOrder : List (List Nat) :=
  [ strBytes "[", strBytes "]", strBytes "(", strBytes ")", strBytes "\x7b",
    strBytes "\x7d", strBytes ".", strBytes "->",
    strBytes "++", strBytes "--", strBytes "&", strBytes "*", strBytes "+",
    strBytes "-", strBytes "~", strBytes "!",
    strBytes "/", strBytes "%", strBytes "<<", strBytes ">>", strBytes "<",
    strBytes ">", strBytes "<=", strBytes ">=", strBytes "==", strBytes "!=",
    strBytes "^", strBytes "|", strBytes "&&", strBytes "||",
    strBytes "?", strBytes ":", strBytes ";",
    strBytes "=", strBytes "*=", strBytes "/=", strBytes "%=", strBytes "+=",
    strBytes "-=", strBytes "<<=", strBytes ">>=", strBytes "&=",
    strBytes "^=", strBytes "|=",
    strBytes ",", strBytes "<:", strBytes ":>", strBytes "<%", strBytes "%>" ]

/-- Insert into a descending-sorted list, by the string `>=` that
`allPunctuators` sorts with. -/
def insertDescending (x : List Nat) : List (List Nat) → List (List Nat)
  | [] => [x]
  | y :: ys => if !strLt x y then x :: y :: ys else y :: insertDescending x ys

/-- Sort descending (the effect of the `std::sort` in `allPunctuators`). -/
def sortDescending : List (List Nat) → List (List Nat)
  | [] => []
  | x :: xs => insertDescending x (sortDescending xs)

/-- Source `ALL_PUNCTUATORS`: the punctuators sorted by descending string
comparison, so that the longest match is attempted first. -/
def ALL_PUNCTUATORS : List (List Nat) := sortDescending punctuatorStreamOrder

/-- Lexer::scanPunctuator (`Lexer.cpp` lines 410-421). -/
def scanPunctuatorLoop : List (List Nat) → LexState → Option Token × LexState
  | [], s => (none, s)
  | p :: rest, s =>
    if lexPeekN s p.length = p then (some (Token.punctuator p), lexIgnoreN s p.length)
    else scanPunctuatorLoop rest s

/-- Lexer::scanPunctuator over the full table. -/
def scanPunctuator (s : LexState) : Option Token × LexState :=
  scanPunctuatorLoop ALL_PUNCTUATORS s

/-- The block-comment consuming loop of `Lexer::next`
(`while (!REOI && peekN(2) != "*/") ignore;`). -/
def skipBlockCommentAux : Nat → LexState → LexState
  | 0, s => s
  | fuel + 1, s =>
    if !lexREOI s && lexPeekN s 2 ≠ strBytes "*/" then
      skipBlockCommentAux fuel (lexIgnore s)
    else s

/-- Total wrapper for `skipBlockCommentAux`. -/
def skipBlockCommentT (s : LexState) : LexState :=
  skipBlockCommentAux (s.input.length + 1) s

/-- Lexer::next (`Lexer.cpp` lines 424-491).  The fuel bounds the
recursion used to restart after a comment; `none` means fuel ran out. -/
def lexNext : Nat → LexState → Option (LexOut × LexState)
  | 0, _ => none
  | fuel + 1, s =>
    let s := skipWhileT isSpaceStd s
    if lexREOI s then some (LexOut.tok (some Token.endOfInput), s)
    else if lexPeekN s 2 = strBytes "//" then
      let s := lexIgnoreN s 2
      let s := skipWhileT (fun c => c ≠ -1 && c ≠ 10) s
      let s := lexIgnore s
      lexNext fuel s
    else if lexPeekN s 2 = strBytes "/*" then
      let s := lexIgnoreN s 2
      let s := skipBlockCommentT s
      let s := lexIgnoreN s 2
      lexNext fuel s
    else if isAlphaStd (lexPeek s) || lexPeek s = 95 then
      let startOffset := lexOffset s
      let (buffer, s) := readIdentString s
      if lexPeek s = 34 || lexPeek s = 39 then
        some (scanCharSequence (lexPeek s) buffer startOffset s)
      else
        match findKeyword buffer with
        | some k => some (LexOut.tok (some (Token.keyword k)), s)
        | none => some (LexOut.tok (some (Token.ident buffer)), s)
    else if lexPeek s = 34 || lexPeek s = 39 then
      some (scanCharSequence (lexPeek s) [] (lexOffset s) s)
    else
      let lookaheads := lexPeekN s 2
      if lookaheads.headD 0 = 46 then
        if isDigitStd (Int.ofNat (lookaheads.getD 1 0)) then
          let (r, s) := numScan s
          some (LexOut.tok (r.map Token.numberLiteral), s)
        else
          let s := lexIgnore s
          some (LexOut.tok (some (Token.punctuator (strBytes "."))), s)
      else if isDigitStd (lexPeek s) then
        let (r, s) := numScan s
        some (LexOut.tok (r.map Token.numberLiteral), s)
      else
        match scanPunctuator s with
        | (some p, s) => some (LexOut.tok (some p), s)
        | (none, s) =>
          let startOffsetOfStrayChar := lexOffset s
          let (strayChar, s) := lexGet s
          some (LexOut.fatal,
            lexReport s
              { rangeStart := startOffsetOfStrayChar
                rangeEnd := lexOffset s
                message := strBytes "Stray \"" ++ [byteOfChar strayChar] ++
                  strBytes "\" in program."
                hint := strBytes "Invalid character." })

/-- Initial lexer state over a source string, with an empty error sink. -/
def lexInit (src : String) : LexState := ⟨strBytes src, 0, []⟩

/-! ## Reference description of the literal-body scan (for claim C7) -/

/-- Reference scan of a string/character literal body, written from the
(amended) specification wording: bytes are consumed until the closing
quote; a line feed or end of input before the quote is a failure (`none`);
a backslash consumes the following byte unconditionally and both bytes stay
in the body verbatim.  On success it returns the body and the input after
the closing quote. -/
def scanBodySpec (quote : Int) : List Nat → Option (List Nat × List Nat)
  | [] => none
  | c :: cs =>
    if (c : Int) = quote then some ([], cs)
    else if c = 10 then none
    else if c = 92 then
      match cs with
      | [] => none
      | c2 :: cs' => (scanBodySpec quote cs').map fun r => (c :: c2 :: r.1, r.2)
    else (scanBodySpec quote cs).map fun r => (c :: r.1, r.2)

/-- A successful reference scan decomposes the input as body, closing
quote, rest. -/
theorem scanBodySpec_decomp (quote : Int) :
    ∀ (n : Nat) (l : List Nat), l.length ≤ n → ∀ body rest,
      scanBodySpec quote l = some (body, rest) →
      ∃ q : Nat, (q : Int) = quote ∧ l = body ++ q :: rest := by
  intro n
  induction n with
  | zero =>
    intro l hl body rest h
    have hnil : l = [] := List.eq_nil_of_length_eq_zero (Nat.le_zero.mp hl)
    subst hnil
    rw [scanBodySpec.eq_def] at h
    cases h
  | succ n ih =>
    intro l hl body rest h
    cases l with
    | nil => rw [scanBodySpec.eq_def] at h; cases h
    | cons c cs =>
      rw [scanBodySpec.eq_def] at h
      dsimp only at h
      by_cases hq : (c : Int) = quote
      · rw [if_pos hq] at h
        obtain ⟨h1, h2⟩ := Prod.mk.inj (Option.some.inj h)
        exact ⟨c, hq, by rw [← h1, ← h2]; simp⟩
      · rw [if_neg hq] at h
        by_cases h10 : c = 10
        · rw [if_pos h10] at h; cases h
        · rw [if_neg h10] at h
          by_cases h92 : c = 92
          · rw [if_pos h92] at h
            cases cs with
            | nil => cases h
            | cons c2 cs' =>
              dsimp only at h
              simp only [Option.map_eq_some'] at h
              obtain ⟨⟨b', r'⟩, hb, hE⟩ := h
              have hlen : cs'.length ≤ n := by
                simp only [List.length_cons] at hl; omega
              obtain ⟨q, hql, hdec⟩ := ih cs' hlen b' r' hb
              obtain ⟨h1, h2⟩ := Prod.mk.inj hE
              refine ⟨q, hql, ?_⟩
              rw [← h1, ← h2, hdec]
              simp
          · rw [if_neg h92] at h
            simp only [Option.map_eq_some'] at h
            obtain ⟨⟨b', r'⟩, hb, hE⟩ := h
            have hlen : cs.length ≤ n := by
              simp only [List.length_cons] at hl; omega
            obtain ⟨q, hql, hdec⟩ := ih cs hlen b' r' hb
            obtain ⟨h1, h2⟩ := Prod.mk.inj hE
            refine ⟨q, hql, ?_⟩
            rw [← h1, ← h2, hdec]
            simp

/-- Reading before the end of input yields the byte at the cursor. -/
theorem lexGet_eq_of_lt (s : LexState) (h : s.cursor < s.input.length) :
    lexGet s = ((s.input.getD s.cursor 0 : Int), { s with cursor := s.cursor + 1 }) := by
  simp [lexGet, h]

/-- Reading at the end of input yields `EOF` and leaves the state alone. -/
theorem lexGet_eq_of_ge (s : LexState) (h : s.input.length ≤ s.cursor) :
    lexGet s = (-1, s) := by
  simp only [lexGet]
  rw [if_neg (by omega)]

/-- Peeking before the end of input yields the byte at the cursor. -/
theorem lexPeek_eq_of_lt (s : LexState) (h : s.cursor < s.input.length) :
    lexPeek s = (s.input.getD s.cursor 0 : Int) := by
  simp [lexPeek, h]

/-- Peeking at the end of input yields `EOF`. -/
theorem lexPeek_eq_of_ge (s : LexState) (h : s.input.length ≤ s.cursor) :
    lexPeek s = -1 := by
  simp only [lexPeek]
  rw [if_neg (by omega)]

/-- A nonempty remainder of the input means the cursor is in range. -/
theorem cursor_lt_of_drop_cons (s : LexState) (c : Nat) (cs : List Nat)
    (h : s.input.drop s.cursor = c :: cs) : s.cursor < s.input.length := by
  by_contra hc
  push_neg at hc
  rw [List.drop_eq_nil_of_le hc] at h
  cases h

/-- Truncating a byte-sized value through `char` is the identity. -/
theorem byteOfChar_ofNat (b : Nat) (h : b < 256) : byteOfChar (b : Int) = b := by
  show ((b : Int) % 256).toNat = b
  omega

/-- The loop of `scanCharSequenceContent` against the reference scan,
success case: when the reference scan of the remaining input finds a
closing quote, the loop stops right on it having accumulated exactly the
reference body. -/
theorem scanSeqLoopAux_spec_some (quote : Int) :
    ∀ (n : Nat) (s : LexState), s.input.length - s.cursor < n →
      (∀ b ∈ s.input, b < 256) →
      ∀ body rest, scanBodySpec quote (s.input.drop s.cursor) = some (body, rest) →
      ∀ acc, scanSeqLoopAux quote n s acc =
        (acc ++ body, ⟨s.input, s.cursor + body.length, s.errors⟩) := by
  intro n
  induction n with
  | zero =>
    intro s hn hbytes body rest h acc
    exact absurd hn (Nat.not_lt_zero _)
  | succ n ih =>
    intro s hn hbytes body rest h acc
    cases hdrop : s.input.drop s.cursor with
    | nil => rw [hdrop, scanBodySpec.eq_def] at h; cases h
    | cons c cs =>
      have hlt : s.cursor < s.input.length := cursor_lt_of_drop_cons s c cs hdrop
      have hcons := List.drop_eq_getElem_cons hlt
      rw [hdrop] at hcons
      injection hcons with hc hcs
      have hgetD : s.input.getD s.cursor 0 = c := by
        rw [List.getD_eq_getElem s.input 0 hlt, ← hc]
      have hcb : c < 256 := by
        refine hbytes c ?_
        rw [hc]
        exact s.input.getElem_mem hlt
      rw [hdrop] at h
      rw [scanBodySpec.eq_def] at h
      dsimp only at h
      by_cases hcq : (c : Int) = quote
      · -- loop guard fails on the closing quote: exit with the state as is
        rw [if_pos hcq] at h
        obtain ⟨h1, h2⟩ := Prod.mk.inj (Option.some.inj h)
        rw [scanSeqLoopAux]
        rw [if_neg (by
          rw [lexPeek_eq_of_lt s hlt, hgetD]
          simp only [not_and_or]
          right; left
          simpa using hcq)]
        rw [← h1]
        simp
      · rw [if_neg hcq] at h
        by_cases hc10 : c = 10
        · rw [if_pos hc10] at h; cases h
        · rw [if_neg hc10] at h
          have hpk : lexPeek s = (c : Int) := by rw [lexPeek_eq_of_lt s hlt, hgetD]
          have hcond : ¬ lexREOI s ∧ lexPeek s ≠ quote ∧ lexPeek s ≠ 10 := by
            refine ⟨by simp only [lexREOI]; simp; omega, by rw [hpk]; exact hcq, ?_⟩
            rw [hpk]
            exact_mod_cast fun hh => hc10 (by exact_mod_cast hh)
          by_cases hc92 : c = 92
          · rw [if_pos hc92] at h
            cases cs with
            | nil => dsimp only at h; cases h
            | cons c2 cs' =>
              dsimp only at h
              simp only [Option.map_eq_some'] at h
              obtain ⟨⟨b', r'⟩, hb, hE⟩ := h
              obtain ⟨hE1, hE2⟩ := Prod.mk.inj hE
              have hdrop2 : s.input.drop (s.cursor + 1) = c2 :: cs' := hcs.symm
              have hlt2 : s.cursor + 1 < s.input.length :=
                cursor_lt_of_drop_cons ⟨s.input, s.cursor + 1, s.errors⟩ c2 cs' hdrop2
              have hcons2 := List.drop_eq_getElem_cons hlt2
              rw [hdrop2] at hcons2
              injection hcons2 with hc2 hcs2
              have hgetD2 : s.input.getD (s.cursor + 1) 0 = c2 := by
                rw [List.getD_eq_getElem s.input 0 hlt2, ← hc2]
              have hc2b : c2 < 256 := by
                refine hbytes c2 ?_
                rw [hc2]
                exact s.input.getElem_mem hlt2
              rw [scanSeqLoopAux]
              rw [if_pos hcond]
              rw [if_pos (by rw [hpk]; exact_mod_cast congrArg (Nat.cast : Nat → Int) hc92)]
              rw [lexGet_eq_of_lt s hlt]
              dsimp only
              rw [lexGet_eq_of_lt ⟨s.input, s.cursor + 1, s.errors⟩ hlt2]
              dsimp only
              rw [hgetD, hgetD2]
              have hIH := ih ⟨s.input, s.cursor + 1 + 1, s.errors⟩ (by simp; omega)
                (by simpa using hbytes) b' r'
                (by
                  have hd : List.drop (s.cursor + 1 + 1) s.input = cs' := hcs2.symm
                  simpa [hd] using hb)
                (acc ++ [byteOfChar (c : Int), byteOfChar (c2 : Int)])
              rw [hIH]
              dsimp only
              rw [byteOfChar_ofNat c hcb, byteOfChar_ofNat c2 hc2b, ← hE1]
              simp only [Prod.mk.injEq, LexState.mk.injEq, List.length_cons]
              exact ⟨by simp, trivial, by omega, trivial⟩
          · rw [if_neg hc92] at h
            simp only [Option.map_eq_some'] at h
            obtain ⟨⟨b', r'⟩, hb, hE⟩ := h
            obtain ⟨hE1, hE2⟩ := Prod.mk.inj hE
            rw [scanSeqLoopAux]
            rw [if_pos hcond]
            rw [if_neg (by rw [hpk]; exact_mod_cast fun hh => hc92 (by exact_mod_cast hh))]
            rw [lexGet_eq_of_lt s hlt]
            dsimp only
            rw [hgetD]
            have hIH := ih ⟨s.input, s.cursor + 1, s.errors⟩ (by simp; omega)
              (by simpa using hbytes) b' r'
              (by
                have hd : List.drop (s.cursor + 1) s.input = cs := hcs.symm
                simpa [hd] using hb)
              (acc ++ [byteOfChar (c : Int)])
            rw [hIH]
            dsimp only
            rw [byteOfChar_ofNat c hcb, ← hE1]
            simp only [Prod.mk.injEq, LexState.mk.injEq, List.length_cons]
            exact ⟨by simp, trivial, by omega, trivial⟩


/-- The loop wrapper inherits the success-case characterization. -/
theorem scanSeqLoop_spec_some (quote : Int) :
    ∀ (n : Nat) (s : LexState), s.input.length - s.cursor ≤ n →
      (∀ b ∈ s.input, b < 256) →
      ∀ body rest, scanBodySpec quote (s.input.drop s.cursor) = some (body, rest) →
      ∀ acc, scanSeqLoop quote s acc =
        (acc ++ body, ⟨s.input, s.cursor + body.length, s.errors⟩) := by
  intro n s hn hbytes body rest h acc
  cases hdrop : s.input.drop s.cursor with
  | nil => rw [hdrop, scanBodySpec.eq_def] at h; cases h
  | cons c cs =>
    have hlt : s.cursor < s.input.length := cursor_lt_of_drop_cons s c cs hdrop
    unfold scanSeqLoop
    exact scanSeqLoopAux_spec_some quote _ s (by omega) hbytes body rest h acc

/-- The loop of `scanCharSequenceContent` against the reference scan,
failure case: when the reference scan hits a line feed or end of input, the
loop also stops on a line feed or at end of input, with input and error
sink untouched. -/
theorem scanSeqLoopAux_spec_none (quote : Int) :
    ∀ (n : Nat) (s : LexState), s.input.length - s.cursor < n →
      scanBodySpec quote (s.input.drop s.cursor) = none →
      ∀ acc, ∃ out m, scanSeqLoopAux quote n s acc = (out, ⟨s.input, m, s.errors⟩) ∧
        (s.input.length ≤ m ∨ (m < s.input.length ∧ (s.input.getD m 0 : Int) = 10)) := by
  intro n
  induction n with
  | zero =>
    intro s hn h acc
    exact absurd hn (Nat.not_lt_zero _)
  | succ n ih =>
    intro s hn h acc
    cases hdrop : s.input.drop s.cursor with
    | nil =>
      have hge : s.input.length ≤ s.cursor := by
        by_contra hc
        push_neg at hc
        rw [List.drop_eq_getElem_cons hc] at hdrop
        cases hdrop
      refine ⟨acc, s.cursor, ?_, Or.inl hge⟩
      rw [scanSeqLoopAux]
      rw [if_neg (by
        simp only [not_and_or]
        left
        simp [lexREOI]
        omega)]
    | cons c cs =>
      have hlt : s.cursor < s.input.length := cursor_lt_of_drop_cons s c cs hdrop
      have hcons := List.drop_eq_getElem_cons hlt
      rw [hdrop] at hcons
      injection hcons with hc hcs
      have hgetD : s.input.getD s.cursor 0 = c := by
        rw [List.getD_eq_getElem s.input 0 hlt, ← hc]
      have hpk : lexPeek s = (c : Int) := by rw [lexPeek_eq_of_lt s hlt, hgetD]
      rw [hdrop] at h
      rw [scanBodySpec.eq_def] at h
      dsimp only at h
      by_cases hcq : (c : Int) = quote
      · rw [if_pos hcq] at h; cases h
      · rw [if_neg hcq] at h
        by_cases hc10 : c = 10
        · -- the loop stops on the line feed
          refine ⟨acc, s.cursor, ?_, Or.inr ⟨hlt, by rw [hgetD, hc10]; norm_num⟩⟩
          rw [scanSeqLoopAux]
          rw [if_neg (by
            simp only [not_and_or]
            right; right
            rw [hpk, hc10]
            simp)]
        · rw [if_neg hc10] at h
          have hcond : ¬ lexREOI s ∧ lexPeek s ≠ quote ∧ lexPeek s ≠ 10 := by
            refine ⟨by simp only [lexREOI]; simp; omega, by rw [hpk]; exact hcq, ?_⟩
            rw [hpk]
            exact_mod_cast fun hh => hc10 (by exact_mod_cast hh)
          by_cases hc92 : c = 92
          · rw [if_pos hc92] at h
            cases cs with
            | nil =>
              -- lone backslash at the very end: the unconditional second
              -- `get` returns EOF without moving and the loop then exits
              have hlen : s.input.length = s.cursor + 1 := by
                have := congrArg List.length hcs.symm
                simp at this
                omega
              have hdremain : List.drop (s.cursor + 1) s.input = [] := hcs.symm
              obtain ⟨out, m, hloop, hm⟩ := ih ⟨s.input, s.cursor + 1, s.errors⟩
                (by simp; omega)
                (by
                  show scanBodySpec quote (List.drop (s.cursor + 1) s.input) = none
                  rw [hdremain]
                  rfl)
                (acc ++ [byteOfChar (c : Int), byteOfChar (-1)])
              refine ⟨out, m, ?_, by simpa using hm⟩
              rw [scanSeqLoopAux]
              rw [if_pos hcond]
              rw [if_pos (by rw [hpk]; exact_mod_cast congrArg (Nat.cast : Nat → Int) hc92)]
              rw [lexGet_eq_of_lt s hlt]
              dsimp only
              rw [lexGet_eq_of_ge ⟨s.input, s.cursor + 1, s.errors⟩ (by simp; omega)]
              dsimp only
              rw [hgetD]
              simpa using hloop
            | cons c2 cs' =>
              dsimp only at h
              have hrec : scanBodySpec quote cs' = none := by
                cases hrec : scanBodySpec quote cs' with
                | none => rfl
                | some v => rw [hrec] at h; cases h
              have hdrop2 : s.input.drop (s.cursor + 1) = c2 :: cs' := hcs.symm
              have hlt2 : s.cursor + 1 < s.input.length :=
                cursor_lt_of_drop_cons ⟨s.input, s.cursor + 1, s.errors⟩ c2 cs' hdrop2
              have hcons2 := List.drop_eq_getElem_cons hlt2
              rw [hdrop2] at hcons2
              injection hcons2 with hc2 hcs2
              obtain ⟨out, m, hloop, hm⟩ := ih ⟨s.input, s.cursor + 1 + 1, s.errors⟩
                (by simp; omega)
                (by
                  have hd : List.drop (s.cursor + 1 + 1) s.input = cs' := hcs2.symm
                  simpa [hd] using hrec)
                (acc ++ [byteOfChar (c : Int), byteOfChar (c2 : Int)])
              refine ⟨out, m, ?_, by simpa using hm⟩
              rw [scanSeqLoopAux]
              rw [if_pos hcond]
              rw [if_pos (by rw [hpk]; exact_mod_cast congrArg (Nat.cast : Nat → Int) hc92)]
              rw [lexGet_eq_of_lt s hlt]
              dsimp only
              rw [lexGet_eq_of_lt ⟨s.input, s.cursor + 1, s.errors⟩ hlt2]
              dsimp only
              have hgetD2 : s.input.getD (s.cursor + 1) 0 = c2 := by
                rw [List.getD_eq_getElem s.input 0 hlt2, ← hc2]
              rw [hgetD, hgetD2]
              simpa using hloop
          · rw [if_neg hc92] at h
            have hrec : scanBodySpec quote cs = none := by
              cases hrec : scanBodySpec quote cs with
              | none => rfl
              | some v => rw [hrec] at h; cases h
            obtain ⟨out, m, hloop, hm⟩ := ih ⟨s.input, s.cursor + 1, s.errors⟩
              (by simp; omega)
              (by
                have hd : List.drop (s.cursor + 1) s.input = cs := hcs.symm
                simpa [hd] using hrec)
              (acc ++ [byteOfChar (c : Int)])
            refine ⟨out, m, ?_, by simpa using hm⟩
            rw [scanSeqLoopAux]
            rw [if_pos hcond]
            rw [if_neg (by rw [hpk]; exact_mod_cast fun hh => hc92 (by exact_mod_cast hh))]
            rw [lexGet_eq_of_lt s hlt]
            dsimp only
            rw [hgetD]
            simpa using hloop


/-- The loop wrapper inherits the failure-case characterization. -/
theorem scanSeqLoop_spec_none (quote : Int) :
    ∀ (n : Nat) (s : LexState), s.input.length - s.cursor ≤ n →
      scanBodySpec quote (s.input.drop s.cursor) = none →
      ∀ acc, ∃ out m, scanSeqLoop quote s acc = (out, ⟨s.input, m, s.errors⟩) ∧
        (s.input.length ≤ m ∨ (m < s.input.length ∧ (s.input.getD m 0 : Int) = 10)) := by
  intro n s hn h acc
  unfold scanSeqLoop
  by_cases hc : s.cursor ≤ s.input.length
  · exact scanSeqLoopAux_spec_none quote _ s (by omega) h acc
  · have h0 : s.input.length + 1 - s.cursor = 0 := by omega
    rw [h0]
    exact ⟨acc, s.cursor, rfl, Or.inl (by omega)⟩

/-- Dropping past a decomposed remainder lands exactly on the closing
quote. -/
theorem drop_of_decomp (l : List Nat) (k : Nat) (xs : List Nat) (q : Nat) (ys : List Nat)
    (h : l.drop k = xs ++ q :: ys) : l.drop (k + xs.length) = q :: ys := by
  have h2 := List.drop_drop xs.length k l
  rw [h, List.drop_left] at h2
  exact h2.symm

/-- Characterization of `Lexer::scanCharSequenceContent` by the reference
scan `scanBodySpec`: with the cursor on the opening quote, a successful
reference scan of the rest yields exactly the reference body with the
closing quote consumed and no diagnostic; a failed one (line feed or end of
input first) yields the thrown fatal outcome with exactly the
no-ending-quote diagnostic appended. -/
theorem scanCharSequenceContent_spec (quote : Int) (hq : quote = 34 ∨ quote = 39)
    (s : LexState) (hlt : s.cursor < s.input.length) (hbytes : ∀ b ∈ s.input, b < 256) :
    (∀ body rest, scanBodySpec quote (s.input.drop (s.cursor + 1)) = some (body, rest) →
       scanCharSequenceContent quote s =
         (some body, ⟨s.input, s.cursor + 1 + body.length + 1, s.errors⟩))
  ∧ (scanBodySpec quote (s.input.drop (s.cursor + 1)) = none →
       ∃ m, scanCharSequenceContent quote s =
         (none, ⟨s.input, m, s.errors ++
           [⟨s.cursor, m,
             (if quote = 34 then strBytes "The string literal has no ending quote."
              else strBytes "The character literal has no ending quote."),
             strBytes "No ending quote."⟩]⟩)) := by
  have hip : lexIgnore s = ⟨s.input, s.cursor + 1, s.errors⟩ := by
    simp [lexIgnore, hlt]
  constructor
  · intro body rest h
    have hloop := scanSeqLoop_spec_some quote s.input.length
      ⟨s.input, s.cursor + 1, s.errors⟩ (by simp) (by simpa using hbytes)
      body rest (by simpa using h) []
    obtain ⟨q, hql, hdec⟩ := scanBodySpec_decomp quote (s.input.length)
      (s.input.drop (s.cursor + 1)) (by simp) body rest h
    have hdropq : s.input.drop (s.cursor + 1 + body.length) = q :: rest :=
      drop_of_decomp s.input (s.cursor + 1) body q rest hdec
    have hltq : s.cursor + 1 + body.length < s.input.length :=
      cursor_lt_of_drop_cons ⟨s.input, s.cursor + 1 + body.length, s.errors⟩ q rest hdropq
    have hconsq := List.drop_eq_getElem_cons hltq
    rw [hdropq] at hconsq
    injection hconsq with hqv _
    have hgetq : s.input.getD (s.cursor + 1 + body.length) 0 = q := by
      rw [List.getD_eq_getElem s.input 0 hltq, ← hqv]
    unfold scanCharSequenceContent
    rw [hip]
    dsimp only
    rw [hloop]
    dsimp only
    rw [if_neg (by
      simp only [Bool.or_eq_true, decide_eq_true_eq, not_or]
      constructor
      · simp [lexREOI]; omega
      · rw [lexPeek_eq_of_lt ⟨s.input, s.cursor + 1 + body.length, s.errors⟩ hltq]
        dsimp only
        rw [hgetq, hql]
        rcases hq with h34 | h39
        · rw [h34]; norm_num
        · rw [h39]; norm_num)]
    rw [show lexIgnore ⟨s.input, s.cursor + 1 + body.length, s.errors⟩ =
        ⟨s.input, s.cursor + 1 + body.length + 1, s.errors⟩ by simp [lexIgnore, hltq]]
    simp
  · intro h
    obtain ⟨out, m, hloop, hm⟩ := scanSeqLoop_spec_none quote s.input.length
      ⟨s.input, s.cursor + 1, s.errors⟩ (by simp) (by simpa using h) []
    dsimp only at hloop hm
    refine ⟨m, ?_⟩
    unfold scanCharSequenceContent
    rw [hip]
    dsimp only
    rw [hloop]
    dsimp only
    rw [if_pos (by
      simp only [Bool.or_eq_true, decide_eq_true_eq]
      rcases hm with hge | ⟨hmlt, hv⟩
      · left; simp [lexREOI]; omega
      · right
        rw [lexPeek_eq_of_lt ⟨s.input, m, s.errors⟩ hmlt]
        simpa using hv)]
    simp [lexReport, lexOffset]

/-- Ignoring a byte does not touch the error sink. -/
theorem lexIgnore_errors (s : LexState) : (lexIgnore s).errors = s.errors := by
  simp only [lexIgnore]; split <;> rfl

/-- Ignoring a byte does not touch the input. -/
theorem lexIgnore_input (s : LexState) : (lexIgnore s).input = s.input := by
  simp only [lexIgnore]; split <;> rfl

/-- Ignoring bytes does not touch the error sink. -/
theorem lexIgnoreN_errors (n : Nat) : ∀ s : LexState, (lexIgnoreN s n).errors = s.errors := by
  induction n with
  | zero => intro s; rfl
  | succ n ih =>
    intro s
    simp only [lexIgnoreN]
    split
    · rfl
    · rw [ih, lexIgnore_errors]

/-- Reading a byte does not touch the error sink. -/
theorem lexGet_snd_errors (s : LexState) : (lexGet s).2.errors = s.errors := by
  simp only [lexGet]; split <;> rfl

/-- The whitespace-skipping loops do not touch the error sink. -/
theorem skipWhileAux_errors (p : Int → Bool) (n : Nat) :
    ∀ s : LexState, (skipWhileAux p n s).errors = s.errors := by
  induction n with
  | zero => intro s; rfl
  | succ n ih =>
    intro s
    simp only [skipWhileAux]
    split
    · rw [ih, lexIgnore_errors]
    · rfl

/-- The byte-collecting loops do not touch the error sink. -/
theorem readWhileAux_errors (p : Int → Bool) (n : Nat) :
    ∀ s : LexState, (readWhileAux p n s).2.errors = s.errors := by
  induction n with
  | zero => intro s; rfl
  | succ n ih =>
    intro s
    simp only [readWhileAux]
    split
    · rw [ih, lexGet_snd_errors]
    · rfl

/-- The block-comment loop does not touch the error sink. -/
theorem skipBlockCommentAux_errors (n : Nat) :
    ∀ s : LexState, (skipBlockCommentAux n s).errors = s.errors := by
  induction n with
  | zero => intro s; rfl
  | succ n ih =>
    intro s
    simp only [skipBlockCommentAux]
    split
    · rw [ih, lexIgnore_errors]
    · rfl

/-- The literal-body loop does not touch the error sink. -/
theorem scanSeqLoopAux_errors (quote : Int) :
    ∀ (n : Nat) (s : LexState) (acc : List Nat),
      (scanSeqLoopAux quote n s acc).2.errors = s.errors := by
  intro n
  induction n with
  | zero => intro s acc; rfl
  | succ n ih =>
    intro s acc
    rw [scanSeqLoopAux]
    split
    · split
      · rw [ih, lexGet_snd_errors, lexGet_snd_errors]
      · rw [ih, lexGet_snd_errors]
    · rfl

/-- The loop wrapper does not touch the error sink either. -/
theorem scanSeqLoop_errors (quote : Int) :
    ∀ (n : Nat) (s : LexState), s.input.length - s.cursor ≤ n →
      ∀ acc, (scanSeqLoop quote s acc).2.errors = s.errors := by
  intro n s _ acc
  unfold scanSeqLoop
  exact scanSeqLoopAux_errors quote _ s acc

/-- A thrown `scanCharSequenceContent` appends exactly the no-ending-quote
diagnostic. -/
theorem scanCharSequenceContent_fatal (quote : Int) (s : LexState) (s' : LexState)
    (h : scanCharSequenceContent quote s = (none, s')) :
    ∃ e : Error, s'.errors = s.errors ++ [e] ∧ e.hint = strBytes "No ending quote." := by
  unfold scanCharSequenceContent at h
  dsimp only at h
  rcases hloop : scanSeqLoop quote (lexIgnore s) [] with ⟨out, st⟩
  rw [hloop] at h
  dsimp only at h
  split at h
  · obtain ⟨-, h2⟩ := Prod.mk.inj h
    have hst : st.errors = s.errors := by
      have := scanSeqLoop_errors quote ((lexIgnore s).input.length) (lexIgnore s)
        (by omega) []
      rw [hloop] at this
      dsimp only at this
      rw [this, lexIgnore_errors]
    refine ⟨{ rangeStart := lexOffset s, rangeEnd := lexOffset st,
              message := if quote = 34 then strBytes "The string literal has no ending quote."
                         else strBytes "The character literal has no ending quote.",
              hint := strBytes "No ending quote." }, ?_, rfl⟩
    rw [← h2]
    simp only [lexReport]
    rw [hst]
  · cases h

/-- A fatal `scanCharSequence` appends exactly the no-ending-quote
diagnostic. -/
theorem scanCharSequence_fatal (quote : Int) (pfx : List Nat) (off : Nat)
    (s s' : LexState) (h : scanCharSequence quote pfx off s = (LexOut.fatal, s')) :
    ∃ e : Error, s'.errors = s.errors ++ [e] ∧ e.hint = strBytes "No ending quote." := by
  unfold scanCharSequence at h
  rcases hpfx : getCharSequencePrefixTag pfx with _ | tag
  · rw [hpfx] at h
    rcases hcs : scanCharSequenceContent quote s with ⟨b, st⟩
    rw [hcs] at h
    cases b with
    | none =>
      obtain ⟨-, h2⟩ := Prod.mk.inj h
      rw [← h2]
      exact scanCharSequenceContent_fatal quote s st hcs
    | some body => cases h
  · rw [hpfx] at h
    rcases hcs : scanCharSequenceContent quote s with ⟨b, st⟩
    rw [hcs] at h
    cases b with
    | none =>
      obtain ⟨-, h2⟩ := Prod.mk.inj h
      rw [← h2]
      exact scanCharSequenceContent_fatal quote s st hcs
    | some body => cases h

/-- Whitespace skipping preserves the error sink. -/
theorem skipWhileT_errors (p : Int → Bool) (s : LexState) :
    (skipWhileT p s).errors = s.errors := skipWhileAux_errors p _ s

/-- Byte collecting preserves the error sink. -/
theorem readWhileT_errors (p : Int → Bool) (s : LexState) :
    (readWhileT p s).2.errors = s.errors := readWhileAux_errors p _ s

/-- Identifier reading preserves the error sink. -/
theorem readIdentString_errors (s : LexState) :
    (readIdentString s).2.errors = s.errors := readWhileT_errors _ s

/-- The block-comment skip preserves the error sink. -/
theorem skipBlockCommentT_errors (s : LexState) :
    (skipBlockCommentT s).errors = s.errors := skipBlockCommentAux_errors _ s

/-- Punctuator matching preserves the error sink. -/
theorem scanPunctuatorLoop_errors (l : List (List Nat)) :
    ∀ s : LexState, (scanPunctuatorLoop l s).2.errors = s.errors := by
  induction l with
  | nil => intro s; rfl
  | cons p rest ih =>
    intro s
    simp only [scanPunctuatorLoop]
    split
    · exact lexIgnoreN_errors p.length s
    · exact ih s

/-- Fatal outcomes of `Lexer::next` can only come from the two `throw`
sites: an unterminated string/character literal (hint
`"No ending quote."`) or a stray character (hint `"Invalid character."`);
exactly one diagnostic is appended either way. -/
theorem lexNext_fatal :
    ∀ (fuel : Nat) (s : LexState) (out : LexOut) (s' : LexState),
      lexNext fuel s = some (out, s') → out = LexOut.fatal →
      ∃ e : Error, s'.errors = s.errors ++ [e] ∧
        (e.hint = strBytes "No ending quote." ∨ e.hint = strBytes "Invalid character.") := by
  intro fuel
  induction fuel with
  | zero => intro s out s' h hf; cases h
  | succ fuel ih =>
    intro s out s' h hf
    subst hf
    rw [lexNext] at h
    dsimp only at h
    have hE1 : (skipWhileT isSpaceStd s).errors = s.errors := skipWhileT_errors _ s
    split at h
    · -- end of input: a token, not fatal
      obtain ⟨h1, -⟩ := Prod.mk.inj (Option.some.inj h)
      cases h1
    · split at h
      · -- line comment, rescan
        obtain ⟨e, he, hh⟩ := ih _ _ _ h rfl
        refine ⟨e, ?_, hh⟩
        rw [he, lexIgnore_errors, skipWhileT_errors, lexIgnoreN_errors, hE1]
      · split at h
        · -- block comment, rescan
          obtain ⟨e, he, hh⟩ := ih _ _ _ h rfl
          refine ⟨e, ?_, hh⟩
          rw [he, lexIgnoreN_errors, skipBlockCommentT_errors, lexIgnoreN_errors, hE1]
        · split at h
          · -- identifier or prefixed literal
            rcases hri : readIdentString (skipWhileT isSpaceStd s) with ⟨buffer, s₂⟩
            rw [hri] at h
            dsimp only at h
            have hE2 : s₂.errors = s.errors := by
              have := readIdentString_errors (skipWhileT isSpaceStd s)
              rw [hri] at this
              dsimp only at this
              rw [this, hE1]
            split at h
            · -- literal with a parsed prefix
              have h2 := Option.some.inj h
              obtain ⟨e, he, hh⟩ := scanCharSequence_fatal _ _ _ _ _
                (by rw [h2])
              refine ⟨e, ?_, Or.inl hh⟩
              rw [he, hE2]
            · split at h
              · obtain ⟨h1, -⟩ := Prod.mk.inj (Option.some.inj h); cases h1
              · obtain ⟨h1, -⟩ := Prod.mk.inj (Option.some.inj h); cases h1
          · split at h
            · -- unprefixed literal
              have h2 := Option.some.inj h
              obtain ⟨e, he, hh⟩ := scanCharSequence_fatal _ _ _ _ _
                (by rw [h2])
              refine ⟨e, ?_, Or.inl hh⟩
              rw [he, hE1]
            · split at h
              · split at h
                · -- number starting with a dot
                  rcases hns : numScan (skipWhileT isSpaceStd s) with ⟨r, s₂⟩
                  rw [hns] at h
                  dsimp only at h
                  obtain ⟨h1, -⟩ := Prod.mk.inj (Option.some.inj h)
                  cases h1
                · -- the dot punctuator
                  obtain ⟨h1, -⟩ := Prod.mk.inj (Option.some.inj h)
                  cases h1
              · split at h
                · -- number
                  rcases hns : numScan (skipWhileT isSpaceStd s) with ⟨r, s₂⟩
                  rw [hns] at h
                  dsimp only at h
                  obtain ⟨h1, -⟩ := Prod.mk.inj (Option.some.inj h)
                  cases h1
                · -- punctuator or stray character
                  rcases hsp : scanPunctuator (skipWhileT isSpaceStd s) with ⟨optTok, s₂⟩
                  rw [hsp] at h
                  have hE2 : s₂.errors = s.errors := by
                    have := scanPunctuatorLoop_errors ALL_PUNCTUATORS (skipWhileT isSpaceStd s)
                    rw [show scanPunctuatorLoop ALL_PUNCTUATORS (skipWhileT isSpaceStd s) =
                        scanPunctuator (skipWhileT isSpaceStd s) from rfl, hsp] at this
                    dsimp only at this
                    rw [this, hE1]
                  cases optTok with
                  | some p =>
                    dsimp only at h
                    obtain ⟨h1, -⟩ := Prod.mk.inj (Option.some.inj h)
                    cases h1
                  | none =>
                    dsimp only at h
                    obtain ⟨-, h2⟩ := Prod.mk.inj (Option.some.inj h)
                    refine ⟨{ rangeStart := lexOffset s₂,
                              rangeEnd := lexOffset (lexGet s₂).2,
                              message := strBytes "Stray \"" ++
                                [byteOfChar (lexGet s₂).1] ++ strBytes "\" in program.",
                              hint := strBytes "Invalid character." }, ?_, Or.inr rfl⟩
                    rw [← h2]
                    simp only [lexReport]
                    rw [lexGet_snd_errors, hE2]

/-! ## Claims about the lexer -/

/-- C4: the claim says the lexer's keyword set has 36 keywords including
`"char"` and `next()` returns a `Keyword` token for each of them.  In the
code the static `keywordPairs` table has only 35 entries — `"char"` is
absent (even though `enum class Keyword` declares `Char`) — so `next()`
lexes `char` as an `Identifier`.  Identifiers outside the table do lex as
identifiers, and table members such as `while` do lex as keywords. -/
theorem claim_C4_keyword_table_missing_char :
    findKeyword (strBytes "char") = none ∧
    keywordPairs.length = 35 ∧
    lexNext 10 (lexInit "char ") =
      some (LexOut.tok (some (Token.ident (strBytes "char"))),
        ⟨strBytes "char ", 4, []⟩) ∧
    lexNext 10 (lexInit "while ") =
      some (LexOut.tok (some (Token.keyword Keyword.kWhile)),
        ⟨strBytes "while ", 5, []⟩) :=
  ⟨rfl, rfl, rfl, rfl⟩

/-- C6: the claim says the integer-suffix scanner accepts one optional
unsigned marker and one optional long marker in either order (`uLL` and
`LLu` both fine).  In the code, `scanSuffixes` jumps to `fail` as soon as
suffix class `j` does not match at the current position, so only the empty
suffix or an unsigned marker immediately followed by a long marker pass:
`"0171uLL"` lexes, but `"171LLu"` — and even the plain `"171u"` — are
reported as invalid suffixes and `next()` returns no token. -/
theorem claim_C6_integer_suffix_order :
    lexNext 10 (lexInit "0171uLL") =
      some (LexOut.tok (some (Token.numberLiteral (strBytes "0171uLL"))),
        ⟨strBytes "0171uLL", 7, []⟩) ∧
    lexNext 10 (lexInit "171LLu") =
      some (LexOut.tok none,
        ⟨strBytes "171LLu", 6,
          [⟨0, 6, strBytes "\"LLu\" is not a valid suffix for the number literal 171.",
            strBytes "invalid suffix."⟩]⟩) ∧
    lexNext 10 (lexInit "171u") =
      some (LexOut.tok none,
        ⟨strBytes "171u", 4,
          [⟨0, 4, strBytes "\"u\" is not a valid suffix for the number literal 171.",
            strBytes "invalid suffix."⟩]⟩) :=
  ⟨rfl, rfl, rfl⟩

/-- C7 counterexample: the claim says a literal body reaching `'\r'` (also
`'\v'` or `'\f'`) before the closing quote gets the no-ending-quote
diagnostic and a fatal raise.  The code checks only `'\n'`: a string
literal with a bare carriage return in its body is accepted verbatim and
no diagnostic is reported. -/
theorem claim_C7_counterexample :
    lexNext 10 (lexInit "\"ab\rcd\" ") =
      some (LexOut.tok (some (Token.stringLiteral (strBytes "ab\rcd")
          CharSeqPrefixKind.None)),
        ⟨strBytes "\"ab\rcd\" ", 7, []⟩) :=
  rfl

/-- C7 (amended): for every string or character literal whose body reaches
a line feed or end of input before the closing quote, the lexer reports
the no-ending-quote diagnostic and raises the fatal condition out of
`next()` (`'\r'`, `'\v'`, `'\f'` do not terminate the body); this and the
stray-character error are the only non-recoverable lexer errors; and a
body that does reach its closing quote is returned with its bytes
preserved verbatim, a backslash consuming the next byte unconditionally. -/
theorem claim_C7_char_sequence_amended :
    (∀ quote : Int, quote = 34 ∨ quote = 39 → ∀ s : LexState,
      s.cursor < s.input.length → (∀ b ∈ s.input, b < 256) →
      (∀ body rest, scanBodySpec quote (s.input.drop (s.cursor + 1)) = some (body, rest) →
         scanCharSequenceContent quote s =
           (some body, ⟨s.input, s.cursor + 1 + body.length + 1, s.errors⟩))
      ∧ (scanBodySpec quote (s.input.drop (s.cursor + 1)) = none →
         ∃ m, scanCharSequenceContent quote s =
           (none, ⟨s.input, m, s.errors ++
             [⟨s.cursor, m,
               (if quote = 34 then strBytes "The string literal has no ending quote."
                else strBytes "The character literal has no ending quote."),
               strBytes "No ending quote."⟩]⟩)))
    ∧ (∀ (fuel : Nat) (s : LexState) (out : LexOut) (s' : LexState),
        lexNext fuel s = some (out, s') → out = LexOut.fatal →
        ∃ e : Error, s'.errors = s.errors ++ [e] ∧
          (e.hint = strBytes "No ending quote." ∨
           e.hint = strBytes "Invalid character.")) :=
  ⟨fun quote hq s hlt hb => scanCharSequenceContent_spec quote hq s hlt hb,
   lexNext_fatal⟩

/-- Witness for the amended C7 at concrete inputs: the body `ab` of
`"ab"x` is scanned verbatim with the quote consumed, and the fatal run on
the unterminated `"ab` appends one diagnostic with the no-ending-quote
hint. -/
theorem claim_C7_witness :
    (scanCharSequenceContent 34 ⟨strBytes "\"ab\"x", 0, []⟩ =
      (some (strBytes "ab"), ⟨strBytes "\"ab\"x", 4, []⟩)) ∧
    (∃ e : Error,
      (⟨strBytes "\"ab", 3,
        [⟨0, 3, strBytes "The string literal has no ending quote.",
          strBytes "No ending quote."⟩]⟩ : LexState).errors =
        (lexInit "\"ab").errors ++ [e] ∧
      (e.hint = strBytes "No ending quote." ∨
       e.hint = strBytes "Invalid character.")) := by
  constructor
  · have h := (claim_C7_char_sequence_amended.1 34 (Or.inl rfl)
      ⟨strBytes "\"ab\"x", 0, []⟩ (by decide) (by decide)).1
      (strBytes "ab") (strBytes "x") (by decide)
    simpa using h
  · exact claim_C7_char_sequence_amended.2 10 (lexInit "\"ab") LexOut.fatal
      ⟨strBytes "\"ab", 3,
        [⟨0, 3, strBytes "The string literal has no ending quote.",
          strBytes "No ending quote."⟩]⟩ rfl rfl

/-! ## Preprocessor: code buffer and decoder (`code-buffer.h`, `encoding.cpp`) -/

/-- CodeBuffer: a growable byte string plus the start offsets of its
sections; section 0 is the original source. -/
structure CodeBuffer where
  buf : List Nat
  sectionOffsets : List Nat
  deriving DecidableEq, Repr

/-- A buffer holding the original source as section 0. -/
def CodeBuffer.ofSource (src : List Nat) : CodeBuffer := ⟨src, [0]⟩

/-- CodeBuffer::section: the start offset of a section. -/
def CodeBuffer.sectionStart (cb : CodeBuffer) (id : Nat) : Nat :=
  cb.sectionOffsets.getD id 0

/-- CodeBuffer::sectionEnd: the next section's start, or the buffer
length for the last section. -/
def CodeBuffer.sectionEnd (cb : CodeBuffer) (id : Nat) : Nat :=
  if id = cb.sectionOffsets.length - 1 then cb.buf.length
  else cb.sectionOffsets.getD (id + 1) 0

/-- CodeBuffer::sectionSize. -/
def CodeBuffer.sectionSize (cb : CodeBuffer) (id : Nat) : Nat :=
  cb.sectionEnd id - cb.sectionStart id

/-- CodeBuffer::sectionCount. -/
def CodeBuffer.sectionCount (cb : CodeBuffer) : Nat := cb.sectionOffsets.length

/-- CodeBuffer::addSection: append the content, record its start, return
the new section id. -/
def CodeBuffer.addSection (cb : CodeBuffer) (content : List Nat) : Nat × CodeBuffer :=
  (cb.sectionOffsets.length, ⟨cb.buf ++ content, cb.sectionOffsets ++ [cb.buf.length]⟩)

/-- The bytes of a section (what reading `pos(section(id))` for
`sectionSize(id)` bytes yields). -/
def CodeBuffer.sectionContent (cb : CodeBuffer) (id : Nat) : List Nat :=
  (cb.buf.drop (cb.sectionStart id)).take (cb.sectionSize id)

/-- The `utf8` decoder of `encoding.cpp` reading at an offset of a byte
string.  Reading at or past the end yields 0, the NUL terminator a
`std::string`'s `c_str()` guarantees at its end.  For a leading byte that
fits none of the four branches the source leaves codepoint and length
uninitialized (undefined behaviour, unreachable for UTF-8 input); the
embedding returns `(0, 1)` there. -/
def utf8 (buf : List Nat) (off : Nat) : Nat × Nat :=
  let b0 := buf.getD off 0
  if b0 >>> 7 = 0 then (b0, 1)
  else if b0 >>> 5 = 6 then
    (((b0 &&& 31) <<< 6) ||| (buf.getD (off + 1) 0 &&& 63), 2)
  else if b0 >>> 4 = 14 then
    (((b0 &&& 15) <<< 12) ||| ((buf.getD (off + 1) 0 &&& 63) <<< 6) |||
      (buf.getD (off + 2) 0 &&& 63), 3)
  else if b0 >>> 3 = 30 then
    (((b0 &&& 7) <<< 18) ||| ((buf.getD (off + 1) 0 &&& 63) <<< 12) |||
      ((buf.getD (off + 2) 0 &&& 63) <<< 6) ||| (buf.getD (off + 3) 0 &&& 63), 4)
  else (0, 1)

/-! ## Preprocessor: data model (`preprocessor.h` lines 32-124, 465-499) -/

/-- Source `MacroType`. -/
inductive MacroType
  | objectLike
  | functionLike
  deriving DecidableEq, Repr

/-- Source `MacroDefinition`. -/
structure MacroDefinition where
  type : MacroType
  name : List Nat
  parameters : List (List Nat)
  body : List Nat
  deriving DecidableEq, Repr

/-- Source `MacroExpansionResult::Type`. -/
inductive MacroExpansionResult
  | ok (sectionID : Nat)
  | fail
  | error (e : Error)
  deriving DecidableEq, Repr

/-- Source `PPCharacter`: a codepoint (EOF is -1) plus its CodeBuffer
offset. -/
structure PPCharacter where
  codepoint : Int
  offset : Nat
  deriving DecidableEq, Repr

/-- PPCharacter::eof. -/
def PPCharacter.eof : PPCharacter := ⟨-1, 0⟩

/-- The whole mutable state of a `PPImpl` (including the `PPScanner` that
lives inside it and the error sink).  `identScanner` holds the offsets
still to be replayed by the `OffsetCharScanner`; the empty list plays the
null pointer (the scanner is created non-empty and nulled as soon as it is
exhausted, so `some []` never arises in the C++).  The C++ field
`canParseDirectives` is never initialized by the constructor; it is
carried as-is and theorems quantify over its initial value. -/
structure PPState where
  codeBuffer : CodeBuffer
  codeCache : List (List Nat × Nat)
  macros : List MacroDefinition
  identScanner : List Nat
  scOffset : Nat
  stackOfSectionID : List Nat
  stackOfStoredOffsets : List Nat
  canParseDirectives : Bool
  errors : List Error
  deriving DecidableEq, Repr

/-- Lookup in the `std::map<std::string, SectionID>` expansion cache. -/
def cacheFind (cache : List (List Nat × Nat)) (key : List Nat) : Option Nat :=
  (cache.find? fun p => p.1 = key).map Prod.snd

/-- `std::map::insert`: a no-op when the key is already present. -/
def cacheInsert (cache : List (List Nat × Nat)) (key : List Nat) (v : Nat) :
    List (List Nat × Nat) :=
  if (cache.find? fun p => p.1 = key).isSome then cache else cache ++ [(key, v)]

/-- Lookup in `setOfMacroDefinitions`, keyed by name
(`CompareMacroDefinition` is transparent on the name). -/
def macroFind (ms : List MacroDefinition) (name : List Nat) : Option MacroDefinition :=
  ms.find? fun m => m.name = name

/-- `std::set::insert`: a no-op when an element with the same name is
already present (the old definition is kept). -/
def macroInsert (ms : List MacroDefinition) (md : MacroDefinition) :
    List MacroDefinition :=
  if (ms.find? fun m => m.name = md.name).isSome then ms else ms ++ [md]

/-- Append a diagnostic to the sink (`errOut.reportsError`). -/
def ppReport (s : PPState) (e : Error) : PPState :=
  { s with errors := s.errors ++ [e] }

/-! ## Preprocessor: character classes (`preprocessor.h` lines 692-717) -/

/-- Source `isSpace` (the preprocessor's own, not `std::isspace`). -/
def ppIsSpace (c : Int) : Bool :=
  c = 32 || c = 12 || c = 10 || c = 13 || c = 9 || c = 11

/-- Source `isDirectiveSpace`. -/
def isDirectiveSpace (c : Int) : Bool := c = 32 || c = 9

/-- Source `isNewlineCharacter`. -/
def isNewlineCharacter (c : Int) : Bool := c = 13 || c = 10

/-- Source `isStartOfIdentifier`. -/
def isStartOfIdentifier (c : Int) : Bool :=
  c = 95 || (65 ≤ c && c ≤ 90) || (97 ≤ c && c ≤ 122)

/-! ## Preprocessor: the `PPScanner` and its lookahead (`preprocessor.h`
lines 200-353) -/

/-- The id of the section the scanner is currently reading
(`stackOfSectionID.back()`, or 0 when the stack is empty; the stack grows
at the end of the list, as `push_back` does). -/
def currentSectionID (s : PPState) : Nat := s.stackOfSectionID.getLastD 0

/-- PPScanner::currentSectionEnd. -/
def currentSectionEnd (s : PPState) : Nat :=
  s.codeBuffer.sectionEnd (currentSectionID s)

/-- PPScanner::reachedEndOfInput. -/
def ppsREOI (s : PPState) : Bool :=
  s.stackOfSectionID.isEmpty && s.scOffset == s.codeBuffer.sectionEnd 0

/-- The loop of `skipBackslashReturn`: skip `\`-newline pairs.  The
section end is fixed during the loop; fuel bounds the iterations (each
advances the offset by at least two). -/
def skipBackslashReturnAux (buf : List Nat) (secEnd : Nat) : Nat → Nat → Nat
  | 0, off => off
  | fuel + 1, off =>
    if off = secEnd then off
    else
      let (ch1, l1) := utf8 buf off
      if ch1 ≠ 92 ∨ off + l1 = secEnd then off
      else
        let (ch2, l2) := utf8 buf (off + l1)
        if ch2 ≠ 10 then off
        else skipBackslashReturnAux buf secEnd fuel (off + l1 + l2)

/-- PPScanner::skipBackslashReturn. -/
def ppsSkipBackslashReturn (s : PPState) : PPState :=
  let e := currentSectionEnd s
  { s with scOffset := skipBackslashReturnAux s.codeBuffer.buf e (e + 1) s.scOffset }

/-- The section-exit loop at the end of `PPScanner::get`
(`while (!stack.empty() && _offset == currentSectionEnd()) exitSection();`);
at most one pop per stack entry. -/
def exitSectionsAux : Nat → PPState → PPState
  | 0, s => s
  | n + 1, s =>
    if s.stackOfSectionID ≠ [] ∧ s.scOffset = currentSectionEnd s then
      exitSectionsAux n
        { s with stackOfSectionID := s.stackOfSectionID.dropLast,
                 scOffset := s.stackOfStoredOffsets.getLastD 0,
                 stackOfStoredOffsets := s.stackOfStoredOffsets.dropLast }
    else s

/-- The section-exit loop with its sufficient fuel. -/
def exitSections (s : PPState) : PPState :=
  exitSectionsAux s.stackOfSectionID.length s

/-- PPScanner::get. -/
def ppsGet (s : PPState) : Int × PPState :=
  if ppsREOI s then (-1, s)
  else
    let (codepoint, codelen) := utf8 s.codeBuffer.buf s.scOffset
    let s1 : PPState := { s with scOffset := s.scOffset + codelen }
    let s2 := if currentSectionID s1 = 0 then ppsSkipBackslashReturn s1 else s1
    (Int.ofNat codepoint, exitSections s2)

/-- State of a `PPLookaheadScanner`: an index into the section stack
(`-1` means below the stack, i.e. section 0) and an offset. -/
structure PPLookahead where
  indexOfStackItem : Int
  offset : Nat
  deriving DecidableEq, Repr

/-- PPLookaheadScanner::currentSectionID. -/
def laSectionID (s : PPState) (la : PPLookahead) : Nat :=
  if la.indexOfStackItem = -1 then 0
  else s.stackOfSectionID.getD la.indexOfStackItem.toNat 0

/-- PPLookaheadScanner::currentSectionEnd. -/
def laSectionEnd (s : PPState) (la : PPLookahead) : Nat :=
  s.codeBuffer.sectionEnd (laSectionID s la)

/-- PPLookaheadScanner::skipBackslashReturn. -/
def laSkipBackslashReturn (s : PPState) (la : PPLookahead) : PPLookahead :=
  let e := laSectionEnd s la
  { la with offset := skipBackslashReturnAux s.codeBuffer.buf e (e + 1) la.offset }

/-- The constructor of `PPLookaheadScanner`: start at the scanner's state
(the stack index is `size - 1`, so -1 for an empty stack) and skip
backslash-newline pairs. -/
def laInit (s : PPState) : PPLookahead :=
  laSkipBackslashReturn s ⟨(s.stackOfSectionID.length : Int) - 1, s.scOffset⟩

/-- PPLookaheadScanner::reachedEndOfInput, exactly as written in the
source: `_indexOfStackItem == 0 && _offset == sectionEnd(0)`.  (Note this
is `0`, not `-1`: with an empty stack the index is `-1` and this is
`false`; and with one stack entry whose section happens to end where
section 0 ends it is `true`.  Both oddities are kept faithfully.) -/
def laREOI (s : PPState) (la : PPLookahead) : Bool :=
  la.indexOfStackItem == 0 && la.offset == s.codeBuffer.sectionEnd 0

/-- The pop loop at the end of `PPLookaheadScanner::get`. -/
def laPopAux (s : PPState) : Nat → PPLookahead → PPLookahead
  | 0, la => la
  | n + 1, la =>
    if 0 ≤ la.indexOfStackItem ∧ la.offset = laSectionEnd s la then
      laPopAux s n
        ⟨la.indexOfStackItem - 1, s.stackOfStoredOffsets.getD la.indexOfStackItem.toNat 0⟩
    else la

/-- PPLookaheadScanner::get. -/
def laGet (s : PPState) (la : PPLookahead) : Int × PPLookahead :=
  if laREOI s la then (-1, la)
  else
    let (codepoint, codelen) := utf8 s.codeBuffer.buf la.offset
    let la1 : PPLookahead := { la with offset := la.offset + codelen }
    let la2 := if laSectionID s la1 = 0 then laSkipBackslashReturn s la1 else la1
    (Int.ofNat codepoint, laPopAux s (s.stackOfSectionID.length + 1) la2)

/-- PPScanner::peek: the first get of a fresh lookahead scanner. -/
def ppsPeek (s : PPState) : Int := (laGet s (laInit s)).1

/-- The loop of `lookaheadMatches` over the main scanner. -/
def laMatchesAux (s : PPState) : List Nat → PPLookahead → Bool
  | [], _ => true
  | ch :: rest, la =>
    let (c, la') := laGet s la
    if c = (ch : Int) then laMatchesAux s rest la' else false

/-- `lookaheadMatches(scanner, str)` for the main scanner. -/
def ppsLookaheadMatches (s : PPState) (str : List Nat) : Bool :=
  laMatchesAux s str (laInit s)

/-! ## Preprocessor: directive and raw-buffer scanners (`preprocessor.h`
lines 355-463) -/

/-- PPDirectiveScanner::reachedEndOfInput: the underlying scanner is done
or sits on a raw newline. -/
def ppdREOI (s : PPState) : Bool := ppsREOI s || isNewlineCharacter (ppsPeek s)

/-- PPDirectiveScanner::peek. -/
def ppdPeek (s : PPState) : Int := if ppdREOI s then -1 else ppsPeek s

/-- PPDirectiveScanner::get. -/
def ppdGet (s : PPState) : Int × PPState := if ppdREOI s then (-1, s) else ppsGet s

/-- PPDirectiveLookaheadScanner::reachedEndOfInput (its peek is a copy's
get). -/
def dlaREOI (s : PPState) (la : PPLookahead) : Bool :=
  laREOI s la || isNewlineCharacter (laGet s la).1

/-- PPDirectiveLookaheadScanner::get. -/
def dlaGet (s : PPState) (la : PPLookahead) : Int × PPLookahead :=
  if dlaREOI s la then (-1, la) else laGet s la

/-- The loop of `lookaheadMatches` over the directive scanner. -/
def dlaMatchesAux (s : PPState) : List Nat → PPLookahead → Bool
  | [], _ => true
  | ch :: rest, la =>
    let (c, la') := dlaGet s la
    if c = (ch : Int) then dlaMatchesAux s rest la' else false

/-- `lookaheadMatches(ppds, str)` for the directive scanner. -/
def ppdLookaheadMatches (s : PPState) (str : List Nat) : Bool :=
  dlaMatchesAux s str (laInit s)

/-- RawBufferScanner::get over a macro body slice. -/
def rawGet (buf : List Nat) (cursor : Nat) : Int × Nat :=
  if cursor = buf.length then (-1, cursor)
  else
    let (codepoint, charlen) := utf8 buf cursor
    (Int.ofNat codepoint, cursor + charlen)

/-- RawBufferScanner::reachedEndOfInput. -/
def rawREOI (buf : List Nat) (cursor : Nat) : Bool := cursor = buf.length

/-- The loop of `lookaheadMatches` over a raw-buffer scanner (its
lookahead scanner is a plain copy). -/
def rawMatchesAux (buf : List Nat) : List Nat → Nat → Bool
  | [], _ => true
  | ch :: rest, cursor =>
    let (c, cursor') := rawGet buf cursor
    if c = (ch : Int) then rawMatchesAux buf rest cursor' else false

/-- The scanner argument of the templated `PPImpl` members: the main
`PPScanner` (its cursor lives in `PPState`), the `PPDirectiveScanner`
wrapping it, or a `RawBufferScanner` with its own buffer and cursor. -/
inductive Scn
  | pps
  | ppd
  | raw (buf : List Nat) (cursor : Nat)
  deriving DecidableEq, Repr

/-- Dynamic dispatch of `peek`. -/
def scnPeek : Scn → PPState → Int
  | .pps, s => ppsPeek s
  | .ppd, s => ppdPeek s
  | .raw buf cur, _ => (rawGet buf cur).1

/-- Dynamic dispatch of `get`. -/
def scnGet : Scn → PPState → Int × Scn × PPState
  | .pps, s => ((ppsGet s).1, .pps, (ppsGet s).2)
  | .ppd, s => ((ppdGet s).1, .ppd, (ppdGet s).2)
  | .raw buf cur, s => ((rawGet buf cur).1, .raw buf (rawGet buf cur).2, s)

/-- Dynamic dispatch of `reachedEndOfInput`. -/
def scnREOI : Scn → PPState → Bool
  | .pps, s => ppsREOI s
  | .ppd, s => ppdREOI s
  | .raw buf cur, _ => rawREOI buf cur

/-- Dynamic dispatch of `offset`. -/
def scnOffset : Scn → PPState → Nat
  | .pps, s => s.scOffset
  | .ppd, s => s.scOffset
  | .raw _ cur, _ => cur

/-- Dynamic dispatch of `lookaheadMatches`. -/
def scnLookaheadMatches : Scn → PPState → List Nat → Bool
  | .pps, s, str => ppsLookaheadMatches s str
  | .ppd, s, str => ppdLookaheadMatches s str
  | .raw buf cur, _, str => rawMatchesAux buf str cur

/-! ## Preprocessor: shared scanning helpers (`preprocessor.h` lines
508-617, 650-713) -/

/-- PPImpl::skipNewline: consume an optional `\r` then an optional `\n`. -/
def skipNewlineScn (scn : Scn) (s : PPState) : Scn × PPState :=
  let (scn, s) :=
    if scnPeek scn s = 13 then
      let r := scnGet scn s
      (r.2.1, r.2.2)
    else (scn, s)
  if scnPeek scn s = 10 then
    let r := scnGet scn s
    (r.2.1, r.2.2)
  else (scn, s)

/-- The line-comment inner loop of `skipSpacesAndComments`
(`while (!REOI && !newline(peek)) get;`). -/
def ppSkipLineCommentAux : Nat → Scn → PPState → Option (Scn × PPState)
  | 0, _, _ => none
  | fuel + 1, scn, s =>
    if !(scnREOI scn s) && !(isNewlineCharacter (scnPeek scn s)) then
      let r := scnGet scn s
      ppSkipLineCommentAux fuel r.2.1 r.2.2
    else some (scn, s)

/-- The block-comment inner loop of `skipSpacesAndComments`
(`while (!REOI && !lookaheadMatches "*/") get;`). -/
def ppSkipBlockBodyAux : Nat → Scn → PPState → Option (Scn × PPState)
  | 0, _, _ => none
  | fuel + 1, scn, s =>
    if !(scnREOI scn s) && !(scnLookaheadMatches scn s (strBytes "*/")) then
      let r := scnGet scn s
      ppSkipBlockBodyAux fuel r.2.1 r.2.2
    else some (scn, s)

/-- PPImpl::skipSpacesAndComments (`preprocessor.h` lines 556-608):
collapse newlines (setting `canParseDirectives`), spaces, line comments
and block comments; an unterminated block comment is *returned* as an
optional Error value (which most callers discard). -/
def skipSpacesAndComments : Nat → (Int → Bool) → Scn → PPState →
    Option (Option Error × Scn × PPState)
  | 0, _, _, _ => none
  | fuel + 1, isSpaceFn, scn, s =>
    if !(scnREOI scn s) then
      if isNewlineCharacter (scnPeek scn s) then
        let s := { s with canParseDirectives := true }
        let (scn, s) := skipNewlineScn scn s
        skipSpacesAndComments fuel isSpaceFn scn s
      else if isSpaceFn (scnPeek scn s) then
        let r := scnGet scn s
        skipSpacesAndComments fuel isSpaceFn r.2.1 r.2.2
      else if scnLookaheadMatches scn s (strBytes "//") then
        let r := scnGet scn s
        let r := scnGet r.2.1 r.2.2
        match ppSkipLineCommentAux fuel r.2.1 r.2.2 with
        | none => none
        | some (scn, s) =>
          let (scn, s) := skipNewlineScn scn s
          skipSpacesAndComments fuel isSpaceFn scn s
      else if scnLookaheadMatches scn s (strBytes "/*") then
        let startOffset := scnOffset scn s
        let r := scnGet scn s
        let r := scnGet r.2.1 r.2.2
        match ppSkipBlockBodyAux fuel r.2.1 r.2.2 with
        | none => none
        | some (scn, s) =>
          if scnREOI scn s then
            some (some ⟨startOffset, startOffset + 2, strBytes "Unterminated comment.",
              []⟩, scn, s)
          else
            let r := scnGet scn s
            let r := scnGet r.2.1 r.2.2
            skipSpacesAndComments fuel isSpaceFn r.2.1 r.2.2
      else some (none, scn, s)
    else some (none, scn, s)

/-- PPImpl::skipSpaces (`preprocessor.h` lines 610-616). -/
def skipSpacesAux : Nat → (Int → Bool) → Scn → PPState → Option (Scn × PPState)
  | 0, _, _, _ => none
  | fuel + 1, isSpaceFn, scn, s =>
    if !(scnREOI scn s) && isSpaceFn (scnPeek scn s) then
      let r := scnGet scn s
      skipSpacesAux fuel isSpaceFn r.2.1 r.2.2
    else some (scn, s)

/-- The collecting loop of `parseIdentifier`
(`while (!REOI && isalnum(peek)) push(get);`); `std::isalnum` does *not*
accept `_`, so an interior underscore ends the identifier. -/
def parseIdentifierAux : Nat → Scn → PPState → List Nat →
    Option (List Nat × Scn × PPState)
  | 0, _, _, _ => none
  | fuel + 1, scn, s, acc =>
    if !(scnREOI scn s) && isAlnumStd (scnPeek scn s) then
      let (c, scn, s) := scnGet scn s
      parseIdentifierAux fuel scn s (acc ++ [byteOfChar c])
    else some (acc, scn, s)

/-- Source `parseIdentifier` (`preprocessor.h` lines 703-713): push one
`get` unconditionally, then alphanumerics. -/
def parseIdentifier (fuel : Nat) (scn : Scn) (s : PPState) :
    Option (List Nat × Scn × PPState) :=
  let (c, scn, s) := scnGet scn s
  parseIdentifierAux fuel scn s [byteOfChar c]

/-- `parseIdentifier` run through a `CharOffsetRecorder` over the main
scanner: each `get` records the scanner's offset first. -/
def parseIdentifierRecordedAux : Nat → PPState → List Nat → List Nat →
    Option (List Nat × List Nat × PPState)
  | 0, _, _, _ => none
  | fuel + 1, s, accStr, accOffs =>
    if !(ppsREOI s) && isAlnumStd (ppsPeek s) then
      let off := s.scOffset
      let (c, s) := ppsGet s
      parseIdentifierRecordedAux fuel s (accStr ++ [byteOfChar c]) (accOffs ++ [off])
    else some (accStr, accOffs, s)

/-- The recorded identifier parse used at the top of `PPImpl::get`. -/
def parseIdentifierRecorded (fuel : Nat) (s : PPState) :
    Option (List Nat × List Nat × PPState) :=
  let off := s.scOffset
  let (c, s) := ppsGet s
  parseIdentifierRecordedAux fuel s [byteOfChar c] [off]

/-- Source `readAll`: collect characters until EOF. -/
def readAllAux : Nat → Scn → PPState → List Nat → Option (List Nat × Scn × PPState)
  | 0, _, _, _ => none
  | fuel + 1, scn, s, acc =>
    let (c, scn, s) := scnGet scn s
    if c = -1 then some (acc, scn, s)
    else readAllAux fuel scn s (acc ++ [byteOfChar c])

/-- Source `skipAll`: consume until EOF. -/
def skipAllAux : Nat → Scn → PPState → Option (Scn × PPState)
  | 0, _, _ => none
  | fuel + 1, scn, s =>
    let (c, scn, s) := scnGet scn s
    if c = -1 then some (scn, s)
    else skipAllAux fuel scn s

/-- Source `findIndexOfParameter`. -/
def findIndexOfParameter (macroDef : MacroDefinition) (parameterName : List Nat) :
    Option Nat :=
  macroDef.parameters.findIdx? fun p => p = parameterName

/-- Source `createFunctionLikeMacroCacheKey` (`preprocessor.h` lines
662-674): the invocation key `name(arg0,arg1,...)`. -/
def createFunctionLikeMacroCacheKey (macroName : List Nat)
    (arguments : List (List Nat)) : List Nat :=
  match arguments with
  | [] => macroName ++ strBytes "()"
  | a0 :: rest =>
    macroName ++ strBytes "(" ++ a0 ++
      (rest.foldl (fun acc a => acc ++ strBytes "," ++ a) []) ++ strBytes ")"

/-- The space-run skip inside argument parsing
(`while (isSpace(scanner.peek())) scanner.get();`). -/
def argSkipSpacesAux : Nat → Scn → PPState → Option (Scn × PPState)
  | 0, _, _ => none
  | fuel + 1, scn, s =>
    if ppIsSpace (scnPeek scn s) then
      let r := scnGet scn s
      argSkipSpacesAux fuel r.2.1 r.2.2
    else some (scn, s)

mutual

/-- PPImpl::tryExpandingMacro (`preprocessor.h` lines 787-850).  Note two
source-code oddities kept faithfully: on a cache miss the freshly expanded
section is inserted into the cache under `macroDef->name`, not under the
invocation `key` it was just looked up by; and the arity error carries the
range from the invocation start to the current offset. -/
def tryExpandingMacroDef : Nat → List Nat → Scn → PPState →
    Option MacroDefinition → Option (List (List Nat)) →
    Option (MacroExpansionResult × Scn × PPState)
  | 0, _, _, _, _, _ => none
  | fuel + 1, macroName, scn, s, macroDefContext, argContext =>
    let startOffset := scnOffset scn s
    match macroFind s.macros macroName with
    | none => some (.fail, scn, s)
    | some macroDef =>
      if macroDef.type = MacroType.functionLike ∧ scnPeek scn s ≠ 40 then
        some (.fail, scn, s)
      else if macroDef.type = MacroType.functionLike then
        match parseFunctionLikeMacroArgumentList fuel scn s macroDef
            macroDefContext argContext with
        | none => none
        | some (.inr err, scn, s) => some (.error err, scn, s)
        | some (.inl parsed, scn, s) =>
          -- an empty list for a one-parameter macro becomes [""]
          let arguments :=
            if macroDef.parameters.length = 1 ∧ parsed = [] then [[]] else parsed
          if macroDef.parameters.length ≠ arguments.length then
            some (.error ⟨startOffset, scnOffset scn s,
              strBytes "The macro \"" ++ macroDef.name ++ strBytes "\" requires " ++
                natDigits macroDef.parameters.length ++
                strBytes " argument(s), but got " ++ natDigits arguments.length ++
                strBytes ".", []⟩, scn, s)
          else
            let key := createFunctionLikeMacroCacheKey macroDef.name arguments
            match cacheFind s.codeCache key with
            | some sid => some (.ok sid, scn, s)
            | none =>
              match expandFunctionLikeMacroDef fuel macroDef arguments s with
              | none => none
              | some (expandedText, s) =>
                let (sid, cb) := s.codeBuffer.addSection expandedText
                some (.ok sid, scn,
                  { s with codeBuffer := cb,
                           codeCache := cacheInsert s.codeCache macroDef.name sid })
      else
        let key := macroDef.name
        match cacheFind s.codeCache key with
        | some sid => some (.ok sid, scn, s)
        | none =>
          let expandedText := if macroDef.body = [] then strBytes " " else macroDef.body
          let (sid, cb) := s.codeBuffer.addSection expandedText
          some (.ok sid, scn,
            { s with codeBuffer := cb,
                     codeCache := cacheInsert s.codeCache macroDef.name sid })

/-- PPImpl::parseFunctionLikeMacroArgumentList (`preprocessor.h` lines
852-900): consume the `(`, the comma-separated arguments, and the `)`. -/
def parseFunctionLikeMacroArgumentList : Nat → Scn → PPState → MacroDefinition →
    Option MacroDefinition → Option (List (List Nat)) →
    Option ((List (List Nat) ⊕ Error) × Scn × PPState)
  | 0, _, _, _, _, _ => none
  | fuel + 1, scn, s, macroDef, macroDefContext, argContext =>
    let r := scnGet scn s
    let scn := r.2.1
    let s := r.2.2
    if scnPeek scn s = 41 then
      let r := scnGet scn s
      some (.inl [], r.2.1, r.2.2)
    else
      match parseFunctionLikeMacroArgument fuel scn s macroDefContext argContext with
      | none => none
      | some (arg, scn, s) =>
        parseFunctionLikeMacroArgumentListLoop fuel scn s macroDef
          macroDefContext argContext [arg]

/-- The `while (scanner.peek() != ')')` loop of the argument list parse. -/
def parseFunctionLikeMacroArgumentListLoop : Nat → Scn → PPState → MacroDefinition →
    Option MacroDefinition → Option (List (List Nat)) → List (List Nat) →
    Option ((List (List Nat) ⊕ Error) × Scn × PPState)
  | 0, _, _, _, _, _, _ => none
  | fuel + 1, scn, s, macroDef, macroDefContext, argContext, argumentList =>
    if scnPeek scn s ≠ 41 then
      if scnPeek scn s = 44 then
        let r := scnGet scn s
        match parseFunctionLikeMacroArgument fuel r.2.1 r.2.2
            macroDefContext argContext with
        | none => none
        | some (arg, scn, s) =>
          parseFunctionLikeMacroArgumentListLoop fuel scn s macroDef
            macroDefContext argContext (argumentList ++ [arg])
      else
        -- neither ',' nor ')' at depth 0: the scanner is at end of input
        let startOffset := scnOffset scn s
        let r := scnGet scn s
        let scn := r.2.1
        let s := r.2.2
        let endOffset := scnOffset scn s
        some (.inr ⟨startOffset, endOffset,
          strBytes "unterminated argument list invoking macro \"" ++ macroDef.name ++
            strBytes "\"", []⟩, scn, s)
    else
      let r := scnGet scn s
      some (.inl argumentList, r.2.1, r.2.2)

/-- PPImpl::parseFunctionLikeMacroArgument (`preprocessor.h` lines
945-1011): skip leading spaces then run the collecting loop. -/
def parseFunctionLikeMacroArgument : Nat → Scn → PPState →
    Option MacroDefinition → Option (List (List Nat)) →
    Option (List Nat × Scn × PPState)
  | 0, _, _, _, _ => none
  | fuel + 1, scn, s, macroDefContext, argContext =>
    match argSkipSpacesAux (fuel + 1) scn s with
    | none => none
    | some (scn, s) =>
      parseFunctionLikeMacroArgumentLoop fuel scn s macroDefContext argContext 0 []

/-- The main collecting loop of `parseFunctionLikeMacroArgument`.  Note
the source's interior-space handling: a run of spaces is skipped and then
`output += scanner.get()` appends the character *after* the run (not a
space). -/
def parseFunctionLikeMacroArgumentLoop : Nat → Scn → PPState →
    Option MacroDefinition → Option (List (List Nat)) → Int → List Nat →
    Option (List Nat × Scn × PPState)
  | 0, _, _, _, _, _, _ => none
  | fuel + 1, scn, s, macroDefContext, argContext, parenthesisLevel, output =>
    if !(scnREOI scn s) then
      if parenthesisLevel = 0 ∧ (scnPeek scn s = 44 ∨ scnPeek scn s = 41) then
        some (output, scn, s)
      else if scnPeek scn s = 40 ∨ scnPeek scn s = 41 then
        let lvl := if scnPeek scn s = 40 then parenthesisLevel + 1 else parenthesisLevel
        let lvl := if scnPeek scn s = 41 then lvl - 1 else lvl
        let (c, scn, s) := scnGet scn s
        parseFunctionLikeMacroArgumentLoop fuel scn s macroDefContext argContext
          lvl (output ++ [byteOfChar c])
      else if ppIsSpace (scnPeek scn s) then
        match argSkipSpacesAux (fuel + 1) scn s with
        | none => none
        | some (scn, s) =>
          let (c, scn, s) := scnGet scn s
          parseFunctionLikeMacroArgumentLoop fuel scn s macroDefContext argContext
            parenthesisLevel (output ++ [byteOfChar c])
      else if isStartOfIdentifier (scnPeek scn s) then
        match parseIdentifier fuel scn s with
        | none => none
        | some (identifier, scn, s) =>
          match (match macroDefContext with
                 | some ctx => findIndexOfParameter ctx identifier
                 | none => none) with
          | some index =>
            parseFunctionLikeMacroArgumentLoop fuel scn s macroDefContext argContext
              parenthesisLevel (output ++ ((argContext.getD []).getD index []))
          | none =>
            match tryExpandingMacroDef fuel identifier scn s
                macroDefContext argContext with
            | none => none
            | some (.error e, scn, s) =>
              parseFunctionLikeMacroArgumentLoop fuel scn (ppReport s e)
                macroDefContext argContext parenthesisLevel output
            | some (.ok sid, scn, s) =>
              parseFunctionLikeMacroArgumentLoop fuel scn s macroDefContext argContext
                parenthesisLevel (output ++ s.codeBuffer.sectionContent sid)
            | some (.fail, scn, s) =>
              parseFunctionLikeMacroArgumentLoop fuel scn s macroDefContext argContext
                parenthesisLevel (output ++ identifier)
      else
        let (c, scn, s) := scnGet scn s
        parseFunctionLikeMacroArgumentLoop fuel scn s macroDefContext argContext
          parenthesisLevel (output ++ [byteOfChar c])
    else some (output, scn, s)

/-- PPImpl::expandFunctionLikeMacro (`preprocessor.h` lines 902-943). -/
def expandFunctionLikeMacroDef : Nat → MacroDefinition → List (List Nat) →
    PPState → Option (List Nat × PPState)
  | 0, _, _, _ => none
  | fuel + 1, macroDef, arguments, s =>
    if macroDef.body = [] then some (strBytes " ", s)
    else expandFLMLoop fuel macroDef arguments (Scn.raw macroDef.body 0) s []

/-- The body walk of `expandFunctionLikeMacro` over its raw-buffer
scanner. -/
def expandFLMLoop : Nat → MacroDefinition → List (List Nat) → Scn → PPState →
    List Nat → Option (List Nat × PPState)
  | 0, _, _, _, _, _ => none
  | fuel + 1, macroDef, arguments, rbs, s, output =>
    if !(scnREOI rbs s) then
      if isStartOfIdentifier (scnPeek rbs s) then
        match parseIdentifier fuel rbs s with
        | none => none
        | some (identifier, rbs, s) =>
          match findIndexOfParameter macroDef identifier with
          | some index =>
            expandFLMLoop fuel macroDef arguments rbs s
              (output ++ arguments.getD index [])
          | none =>
            match tryExpandingMacroDef fuel identifier rbs s
                (some macroDef) (some arguments) with
            | none => none
            | some (.ok sid, rbs, s) =>
              expandFLMLoop fuel macroDef arguments rbs s
                (output ++ s.codeBuffer.sectionContent sid)
            | some (.fail, rbs, s) =>
              expandFLMLoop fuel macroDef arguments rbs s (output ++ identifier)
            | some (.error e, rbs, s) =>
              expandFLMLoop fuel macroDef arguments rbs (ppReport s e) output
      else
        let (c, rbs, s) := scnGet rbs s
        expandFLMLoop fuel macroDef arguments rbs s (output ++ [byteOfChar c])
    else some (output, s)

end

/-- The `while (scanner.peek() != ')')` loop of
`PPImpl::parseFunctionLikeMacroParameters` (`preprocessor.h` lines
1137-1177).  `identStartOffset` is the offset of the *first* parameter,
used as the start of the duplicate-parameter range, as in the source. -/
def parseFunctionLikeMacroParametersLoop : Nat → List Nat → Nat → Scn → PPState →
    List (List Nat) → Option ((List (List Nat) ⊕ Error) × Scn × PPState)
  | 0, _, _, _, _, _ => none
  | fuel + 1, macroName, identStartOffset, scn, s, parameters =>
    if scnPeek scn s ≠ 41 then
      if scnREOI scn s then
        some (.inr ⟨scnOffset scn s, scnOffset scn s + 1,
          strBytes "Expected ')' before end of line", []⟩, scn, s)
      else if scnPeek scn s ≠ 44 then
        let startOffset := scnOffset scn s
        let r := scnGet scn s
        some (.inr ⟨startOffset, scnOffset r.2.1 r.2.2,
          strBytes "Expected ',' or ')' here.", []⟩, r.2.1, r.2.2)
      else
        let r := scnGet scn s
        match skipSpacesAndComments fuel ppIsSpace r.2.1 r.2.2 with
        | none => none
        | some (_, scn, s) =>
          if scnREOI scn s then
            some (.inr ⟨scnOffset scn s, scnOffset scn s + 1,
              strBytes "Expected parameter name before end of line", []⟩, scn, s)
          else if !(isStartOfIdentifier (scnPeek scn s)) then
            let startOffset := scnOffset scn s
            let r := scnGet scn s
            some (.inr ⟨startOffset, scnOffset r.2.1 r.2.2,
              strBytes "Expected ',' or ')' here.", []⟩, r.2.1, r.2.2)
          else
            match parseIdentifier fuel scn s with
            | none => none
            | some (parameter, scn, s) =>
              if parameters.contains parameter then
                some (.inr ⟨identStartOffset, scnOffset scn s,
                  strBytes "Duplicated parameter \"" ++ parameter ++
                    strBytes "\" in the function-like macro \"" ++ macroName ++
                    strBytes "\".", []⟩, scn, s)
              else
                parseFunctionLikeMacroParametersLoop fuel macroName identStartOffset
                  scn s (parameters ++ [parameter])
    else
      let r := scnGet scn s
      some (.inl parameters, r.2.1, r.2.2)

/-- PPImpl::parseFunctionLikeMacroParameters (`preprocessor.h` lines
1100-1181). -/
def parseFunctionLikeMacroParameters (fuel : Nat) (macroName : List Nat)
    (scn : Scn) (s : PPState) :
    Option ((List (List Nat) ⊕ Error) × Scn × PPState) :=
  let r := scnGet scn s
  match skipSpacesAndComments fuel ppIsSpace r.2.1 r.2.2 with
  | none => none
  | some (_, scn, s) =>
    if scnPeek scn s = 41 then
      let r := scnGet scn s
      some (.inl [], r.2.1, r.2.2)
    else if scnREOI scn s then
      some (.inr ⟨scnOffset scn s, scnOffset scn s + 1,
        strBytes "Expected parameter name before end of line", []⟩, scn, s)
    else if !(isStartOfIdentifier (scnPeek scn s)) then
      let startOffset := scnOffset scn s
      let r := scnGet scn s
      some (.inr ⟨startOffset, scnOffset r.2.1 r.2.2,
        strBytes "Expected ',' or ')' here.", []⟩, r.2.1, r.2.2)
    else
      let identStartOffset := scnOffset scn s
      match parseIdentifier fuel scn s with
      | none => none
      | some (p0, scn, s) =>
        match skipSpacesAndComments fuel ppIsSpace scn s with
        | none => none
        | some (_, scn, s) =>
          parseFunctionLikeMacroParametersLoop fuel macroName identStartOffset
            scn s [p0]

/-- PPImpl::skipNewline applied to the main scanner. -/
def skipNewlinePP (s : PPState) : PPState :=
  let s := if ppsPeek s = 13 then (ppsGet s).2 else s
  if ppsPeek s = 10 then (ppsGet s).2 else s

/-- The `fail:` epilogue of `PPImpl::parseDirective`: drain the directive
line, consume the newline, report the error. -/
def parseDirectiveFail (fuel : Nat) (s : PPState) (e : Error) : Option PPState :=
  match skipAllAux fuel Scn.ppd s with
  | none => none
  | some (_, s) => some (ppReport (skipNewlinePP s) e)

/-- The tail of the `#define` handling in `PPImpl::parseDirective`: skip
directive spaces, read the rest of the line as the body, insert the
definition (a no-op on redefinition, as `std::set::insert` keeps the old
element and nothing is reported), consume the newline. -/
def finishDefine (fuel : Nat) (macroName : List Nat)
    (params : Option (List (List Nat))) (s : PPState) : Option PPState :=
  match skipSpacesAndComments fuel isDirectiveSpace Scn.ppd s with
  | none => none
  | some (_, _, s) =>
    match readAllAux fuel Scn.ppd s [] with
    | none => none
    | some (macroBody, _, s) =>
      let md := match params with
        | none => MacroDefinition.mk MacroType.objectLike macroName [] macroBody
        | some ps => MacroDefinition.mk MacroType.functionLike macroName ps macroBody
      some (skipNewlinePP { s with macros := macroInsert s.macros md })

/-- PPImpl::parseDirective (`preprocessor.h` lines 1022-1092), over the
directive scanner. -/
def parseDirective (fuel : Nat) (s : PPState) : Option PPState :=
  let r := ppdGet s
  match skipSpacesAux fuel isDirectiveSpace Scn.ppd r.2 with
  | none => none
  | some (_, s) =>
    let offsetBeforeParsingDirectiveName := s.scOffset
    match parseIdentifier fuel Scn.ppd s with
    | none => none
    | some (directiveName, _, s) =>
      let offsetAfterParsingDirectiveName := s.scOffset
      if directiveName = [] then some (skipNewlinePP s)
      else if directiveName = strBytes "define" then
        match skipSpacesAndComments fuel isDirectiveSpace Scn.ppd s with
        | none => none
        | some (_, _, s) =>
          if !(isStartOfIdentifier (ppdPeek s)) then
            let startOffset := s.scOffset
            let r := ppdGet s
            parseDirectiveFail fuel r.2
              ⟨startOffset, r.2.scOffset, strBytes "macro names must be identifiers", []⟩
          else
            match parseIdentifier fuel Scn.ppd s with
            | none => none
            | some (macroName, _, s) =>
              if ppdPeek s = 40 then
                match parseFunctionLikeMacroParameters fuel macroName Scn.ppd s with
                | none => none
                | some (.inr e, _, s) => parseDirectiveFail fuel s e
                | some (.inl parameters, _, s) =>
                  finishDefine fuel macroName (some parameters) s
              else finishDefine fuel macroName none s
      else
        parseDirectiveFail fuel s
          ⟨offsetBeforeParsingDirectiveName, offsetAfterParsingDirectiveName,
            strBytes "Unknown preprocessing directive " ++ directiveName, []⟩

/-- PPScanner::enterSection: empty sections are not entered; otherwise
push the current offset and jump to the section start. -/
def ppEnterSection (id : Nat) (s : PPState) : PPState :=
  if s.codeBuffer.sectionSize id = 0 then s
  else
    { s with stackOfSectionID := s.stackOfSectionID ++ [id],
             stackOfStoredOffsets := s.stackOfStoredOffsets ++ [s.scOffset],
             scOffset := s.codeBuffer.sectionStart id }

/-- PPImpl::fastForwardToFirstOutputCharacter. -/
def fastForwardToFirstOutputCharacter : Nat → PPState → Option PPState
  | 0, _ => none
  | fuel + 1, s =>
    match skipSpacesAndComments fuel ppIsSpace Scn.pps s with
    | none => none
    | some (_, _, s) =>
      if ppsPeek s ≠ 35 then some s
      else
        match parseDirective fuel s with
        | none => none
        | some s => fastForwardToFirstOutputCharacter fuel s

/-- PPImpl::get (`preprocessor.h` lines 721-785).  Source oddities kept
faithfully: the `Error` returned by `skipSpacesAndComments` is discarded;
and in the final pass-through branch the offset is read *after* the
`get`, so it addresses the position following the returned character. -/
def ppGet : Nat → PPState → Option (PPCharacter × PPState)
  | 0, _ => none
  | fuel + 1, s =>
    match s.identScanner with
    | o :: rest =>
      let (codepoint, _) := utf8 s.codeBuffer.buf o
      some (⟨Int.ofNat codepoint, o⟩, { s with identScanner := rest })
    | [] =>
      if ppsREOI s then some (PPCharacter.eof, s)
      else if ppIsSpace (ppsPeek s) || ppsLookaheadMatches s (strBytes "/*") ||
          ppsLookaheadMatches s (strBytes "//") then
        let offset := s.scOffset
        match skipSpacesAndComments fuel ppIsSpace Scn.pps s with
        | none => none
        | some (_, _, s) =>
          if ppsPeek s = 35 ∧ s.canParseDirectives then
            match parseDirective fuel s with
            | none => none
            | some s => ppGet fuel s
          else some (⟨32, offset⟩, s)
      else if ppsPeek s = 35 ∧ s.canParseDirectives then
        match parseDirective fuel s with
        | none => none
        | some s => ppGet fuel s
      else
        let s : PPState := { s with canParseDirectives := false }
        if isStartOfIdentifier (ppsPeek s) then
          match parseIdentifierRecorded fuel s with
          | none => none
          | some (identifier, offsets, s) =>
            match tryExpandingMacroDef fuel identifier Scn.pps s none none with
            | none => none
            | some (.ok sid, _, s) => ppGet fuel (ppEnterSection sid s)
            | some (.fail, _, s) => ppGet fuel { s with identScanner := offsets }
            | some (.error e, _, s) => ppGet fuel (ppReport s e)
        else
          let (ch, s) := ppsGet s
          some (⟨ch, s.scOffset⟩, s)

/-- The initial `PPImpl` state before the constructor's fast-forward.
`canParseDirectives` is left uninitialized by the C++ constructor and is a
parameter here. -/
def ppInitState (src : List Nat) (b : Bool) : PPState :=
  ⟨CodeBuffer.ofSource src, [], [], [], 0, [], [], b, []⟩

/-- The `PPImpl` constructor: build the state and fast-forward. -/
def ppInit (fuel : Nat) (src : List Nat) (b : Bool) : Option PPState :=
  fastForwardToFirstOutputCharacter fuel (ppInitState src b)

/-- Drain the preprocessor: characters until the first EOF, plus the final
state. -/
def ppOutput : Nat → PPState → Option (List PPCharacter × PPState)
  | 0, _ => none
  | fuel + 1, s =>
    match ppGet fuel s with
    | none => none
    | some (c, s') =>
      if c.codepoint = -1 then some ([], s')
      else
        match ppOutput fuel s' with
        | none => none
        | some (cs, s'') => some (c :: cs, s'')

/-- Run a source string through construction and a full drain, returning
the emitted codepoints and the final state. -/
def ppRun (fuel : Nat) (src : String) (b : Bool) :
    Option (List Int × PPState) :=
  match ppInit fuel (strBytes src) b with
  | none => none
  | some s =>
    match ppOutput fuel s with
    | none => none
    | some (cs, s') => some (cs.map PPCharacter.codepoint, s')

/-- The content of a freshly added section is exactly what was passed to
`addSection`. -/
theorem CodeBuffer.addSection_content (cb : CodeBuffer) (content : List Nat) :
    (cb.addSection content).2.sectionContent (cb.addSection content).1 = content := by
  simp only [CodeBuffer.addSection, CodeBuffer.sectionContent, CodeBuffer.sectionStart,
    CodeBuffer.sectionEnd, CodeBuffer.sectionSize]
  rw [if_pos (by simp)]
  rw [List.getD_append_right _ _ _ _ (le_refl _)]
  simp only [Nat.sub_self, List.getD_cons_zero]
  rw [List.drop_left]
  simp

/-! ## Claims about the preprocessor -/

/-- C1: the claim says a successful function-like expansion is recorded in
the cache under the invocation key `name(args...)`, so a second identical
invocation returns the cached section.  In `tryExpandingMacro` the cache
is *looked up* by that key but the insertion at `preprocessor.h` line 847
uses `macroDef->name`: after `ID(3) ID(3)` the cache holds only the entry
`("ID", 1)`, a lookup of the invocation key `ID(3)` misses, and the second
identical invocation has re-expanded into a third buffer section instead
of returning the cached one. -/
theorem claim_C1_cache_key_mismatch :
    ∀ b : Bool,
      (ppRun 400 "#define ID(x) x\nID(3) ID(3)" b).map
          (fun r => (r.1, r.2.codeCache, cacheFind r.2.codeCache (strBytes "ID(3)"),
            r.2.codeBuffer.sectionCount)) =
        some ((strBytes "3 3").map (Int.ofNat), [(strBytes "ID", 1)], none, 3) := by
  intro b
  cases b <;> decide!

/-- C2: the claim says the preprocessor reads a full identifier including
interior underscores and attempts expansion on it.  The preprocessor's
`parseIdentifier` continues only on `std::isalnum`, which rejects `_`, so
`a_b` is read as the identifier `a`.  Consequently with
`#define a_b c` the input `a_b` does not expand to `c`: the directive
defines a macro named `a` with body `_b c`, and preprocessing `a_b` yields
`_b c_b`. -/
theorem claim_C2_identifier_underscore :
    (parseIdentifier 10 (Scn.raw (strBytes "a_b") 0) (ppInitState [] false)).map
        (fun r => r.1) = some (strBytes "a") ∧
    ∀ b : Bool,
      (ppRun 400 "#define a_b c\na_b" b).map Prod.fst =
        some ((strBytes "_b c_b").map (Int.ofNat)) := by
  refine ⟨rfl, ?_⟩
  intro b
  cases b <;> decide!

/-- C3: the claim says every `PPCharacter` carries the offset its
codepoint was read from.  In the plain pass-through branch of
`PPImpl::get` (`preprocessor.h` lines 782-784) the offset is read *after*
`scanner.get()`: for the input `;;` the first returned character is the
`;` read from offset 0, but it carries offset 1. -/
theorem claim_C3_offset_after_get :
    ∀ b : Bool,
      ((ppInit 100 (strBytes ";;") b).bind (ppGet 100)).map
          (fun r => (r.1.codepoint, r.1.offset)) = some (59, 1) := by
  intro b
  cases b <;> rfl

/-- C5: the claim says a non-identical `#define` redefinition reports
`Macro "NAME" redefined.` and replaces the old definition.  The `#define`
handling in `PPImpl::parseDirective` just calls
`setOfMacroDefinitions.insert(...)`: `std::set::insert` keeps the old
element, and no diagnostic of any kind is emitted, so after
`#define O2 abc` and `#define O2 abcdef` the sink is empty and `O2` still
has the old body `abc`. -/
theorem claim_C5_no_redefinition_diagnostic :
    ∀ b : Bool,
      (ppRun 300 "#define O2 abc\n#define O2 abcdef\n" b).map
          (fun r => (r.1, r.2.errors,
            (macroFind r.2.macros (strBytes "O2")).map MacroDefinition.body)) =
        some ([], [], some (strBytes "abc")) := by
  intro b
  cases b <;> rfl

/-- C8: the claim says an unterminated block comment produces a
diagnostic whose range starts at the `/*` and scanning then reports end
of input without further characters.  `skipSpacesAndComments` does build
exactly that Error value — but `PPImpl::get` (line 745) and
`fastForwardToFirstOutputCharacter` (line 1016) discard its return value,
so nothing reaches the sink; the run also emits a space for the
whitespace/comment run before end of input.  For `a /*x`: output `a ` and
an empty sink, even though the skipping helper returns the
`Unterminated comment.` error with range (2, 4). -/
theorem claim_C8_unterminated_comment_dropped :
    (∀ b : Bool,
      (ppRun 300 "a /*x" b).map (fun r => (r.1, r.2.errors)) =
        some ((strBytes "a ").map (Int.ofNat), [])) ∧
    (skipSpacesAndComments 50 ppIsSpace Scn.pps
        ⟨CodeBuffer.ofSource (strBytes "a /*x"), [], [], [], 1, [], [], false, []⟩).map
        (fun r => r.1) =
      some (some ⟨2, 4, strBytes "Unterminated comment.", []⟩) := by
  refine ⟨?_, rfl⟩
  intro b
  cases b <;> rfl

/-- C9: an object-like macro with an empty body expands to a single ASCII
space: on a cache miss `tryExpandingMacro` appends a fresh section whose
content is exactly `" "`, and the whole run of `#define EMPTY` followed by
`EMPTY;` outputs exactly `" ;"`. -/
theorem claim_C9_empty_macro_single_space :
    (∀ (fuel : Nat) (name : List Nat) (scn : Scn) (s : PPState) (md : MacroDefinition),
      macroFind s.macros name = some md →
      md.type = MacroType.objectLike →
      md.body = [] →
      cacheFind s.codeCache md.name = none →
      ∃ s' : PPState,
        tryExpandingMacroDef (fuel + 1) name scn s none none =
          some (MacroExpansionResult.ok s.codeBuffer.sectionCount, scn, s') ∧
        s'.codeBuffer.sectionContent s.codeBuffer.sectionCount = strBytes " ") ∧
    ∀ b : Bool,
      (ppRun 300 "#define EMPTY\nEMPTY;" b).map Prod.fst =
        some ((strBytes " ;").map (Int.ofNat)) := by
  constructor
  · intro fuel name scn s md hfind htype hbody hcache
    refine ⟨{ s with
        codeBuffer := (s.codeBuffer.addSection (strBytes " ")).2,
        codeCache := cacheInsert s.codeCache md.name s.codeBuffer.sectionCount }, ?_, ?_⟩
    · rw [tryExpandingMacroDef]
      rw [hfind]
      dsimp only
      rw [if_neg (by rw [htype]; simp)]
      rw [if_neg (by rw [htype]; simp)]
      rw [hcache]
      dsimp only
      rw [if_pos hbody]
      rfl
    · exact CodeBuffer.addSection_content s.codeBuffer (strBytes " ")
  · intro b
    cases b <;> decide!

/-- Witness for the general part of C9 at a concrete state: a table with
the single empty object-like macro `E` over the source `x`. -/
theorem claim_C9_witness :
    macroFind [MacroDefinition.mk MacroType.objectLike (strBytes "E") [] []]
        (strBytes "E") =
      some (MacroDefinition.mk MacroType.objectLike (strBytes "E") [] []) ∧
    cacheFind [] (strBytes "E") = none ∧
    ∃ s' : PPState,
      tryExpandingMacroDef 1 (strBytes "E") Scn.pps
          ⟨CodeBuffer.ofSource (strBytes "x"), [],
            [MacroDefinition.mk MacroType.objectLike (strBytes "E") [] []],
            [], 0, [], [], false, []⟩ none none =
        some (MacroExpansionResult.ok 1, Scn.pps, s') ∧
      s'.codeBuffer.sectionContent 1 = strBytes " " := by
  refine ⟨rfl, rfl, ?_⟩
  exact claim_C9_empty_macro_single_space.1 0 (strBytes "E") Scn.pps
    ⟨CodeBuffer.ofSource (strBytes "x"), [],
      [MacroDefinition.mk MacroType.objectLike (strBytes "E") [] []],
      [], 0, [], [], false, []⟩
    (MacroDefinition.mk MacroType.objectLike (strBytes "E") [] [])
    rfl rfl rfl rfl

/-! ## The public `Preprocessor` wrapper (`preprocessor.h` lines 618-648) -/

structure Preprocessor where
  impl : PPState
  lookaheadBuffer : Option PPCharacter
  deriving DecidableEq, Repr

/-- Preprocessor::get: drain the lookahead buffer first, otherwise
delegate to `PPImpl::get`. -/
def Preprocessor.get (fuel : Nat) (p : Preprocessor) :
    Option (PPCharacter × Preprocessor) :=
  match p.lookaheadBuffer with
  | some c => some (c, { p with lookaheadBuffer := none })
  | none => (ppGet fuel p.impl).map (fun r => (r.1, { p with impl := r.2 }))

/-- Preprocessor::peek: `const`, but it advances the `mutable ppImpl` and
stores the character in `lookaheadBuffer` unless it was EOF. -/
def Preprocessor.peek (fuel : Nat) (p : Preprocessor) :
    Option (PPCharacter × Preprocessor) :=
  match p.lookaheadBuffer with
  | some c => some (c, p)
  | none =>
    match ppGet fuel p.impl with
    | none => none
    | some (c, s2) =>
      if c.codepoint = -1 then some (c, { p with impl := s2 })
      else some (c, { p with impl := s2, lookaheadBuffer := some c })

/-- Preprocessor::reachedEndOfInput: `peek() == EOF`. -/
def Preprocessor.reachedEndOfInput (fuel : Nat) (p : Preprocessor) :
    Option (Bool × Preprocessor) :=
  match Preprocessor.peek fuel p with
  | none => none
  | some (c, p2) => some (c.codepoint == -1, p2)

/-- `PPScanner::get` returns a non-negative codepoint when the scanner has
not reached end of input. -/
theorem ppsGet_fst_nonneg (s : PPState) (h : ppsREOI s = false) :
    0 ≤ (ppsGet s).1 := by
  rcases hu : utf8 s.codeBuffer.buf s.scOffset with ⟨cp, l⟩
  simp only [ppsGet, h, Bool.false_eq_true, if_false, hu]
  exact Int.ofNat_nonneg cp

/-- Once `PPImpl::get` is at end of input with no identifier replay
pending, it returns the EOF character and leaves the state unchanged. -/
theorem ppGet_eof_stable (fuel : Nat) (s : PPState) (hid : s.identScanner = [])
    (hre : ppsREOI s = true) :
    ppGet (fuel + 1) s = some (PPCharacter.eof, s) := by
  rw [ppGet.eq_def]
  dsimp only
  rw [hid]
  dsimp only
  rw [if_pos hre]

/-- `PPImpl::get` returns a character with codepoint `-1` only when that
character is the canonical EOF and the final state is a stable
end-of-input state (no pending identifier replay, scanner at end). -/
theorem ppGet_eof_inv :
    ∀ (fuel : Nat) (s : PPState) (c : PPCharacter) (s' : PPState),
      ppGet fuel s = some (c, s') → c.codepoint = -1 →
      c = PPCharacter.eof ∧ s'.identScanner = [] ∧ ppsREOI s' = true := by
  intro fuel
  induction fuel with
  | zero =>
    intro s c s' h hc
    exact absurd h (by simp [ppGet])
  | succ fuel ih =>
    intro s c s' h hc
    obtain ⟨cb, cc, mac, idsc, off, sid1, sof, cpd, errs⟩ := s
    rw [ppGet.eq_def] at h
    dsimp only at h
    rcases idsc with _ | ⟨o, rest⟩
    · by_cases hre : ppsREOI (⟨cb, cc, mac, [], off, sid1, sof, cpd, errs⟩ : PPState) = true
      · rw [if_pos hre] at h
        rcases Option.some.inj h with h2
        obtain ⟨hc1, hs1⟩ := Prod.mk.inj h2
        refine ⟨hc1.symm, ?_, ?_⟩
        · rw [← hs1]
        · rw [← hs1]; exact hre
      · rw [if_neg hre] at h
        by_cases hsp : (ppIsSpace (ppsPeek (⟨cb, cc, mac, [], off, sid1, sof, cpd, errs⟩ : PPState)) ||
            ppsLookaheadMatches (⟨cb, cc, mac, [], off, sid1, sof, cpd, errs⟩ : PPState) (strBytes "/*") ||
            ppsLookaheadMatches (⟨cb, cc, mac, [], off, sid1, sof, cpd, errs⟩ : PPState) (strBytes "//")) = true
        · rw [if_pos hsp] at h
          rcases hsk : skipSpacesAndComments fuel ppIsSpace Scn.pps
              (⟨cb, cc, mac, [], off, sid1, sof, cpd, errs⟩ : PPState) with _ | ⟨e, scn2, s2⟩
          · rw [hsk] at h; simp at h
          · rw [hsk] at h
            dsimp only at h
            by_cases hd : ppsPeek s2 = 35 ∧ s2.canParseDirectives = true
            · rw [if_pos hd] at h
              rcases hpd : parseDirective fuel s2 with _ | s3
              · rw [hpd] at h; simp at h
              · rw [hpd] at h
                exact ih s3 c s' h hc
            · rw [if_neg hd] at h
              rcases Option.some.inj h with h2
              obtain ⟨hc1, hs1⟩ := Prod.mk.inj h2
              rw [← hc1] at hc
              simp at hc
        · rw [if_neg hsp] at h
          by_cases hd : ppsPeek (⟨cb, cc, mac, [], off, sid1, sof, cpd, errs⟩ : PPState) = 35 ∧
              cpd = true
          · rw [if_pos hd] at h
            rcases hpd : parseDirective fuel
                (⟨cb, cc, mac, [], off, sid1, sof, cpd, errs⟩ : PPState) with _ | s3
            · rw [hpd] at h; simp at h
            · rw [hpd] at h
              exact ih s3 c s' h hc
          · rw [if_neg hd] at h
            by_cases hst : isStartOfIdentifier
                (ppsPeek (⟨cb, cc, mac, [], off, sid1, sof, false, errs⟩ : PPState)) = true
            · rw [if_pos hst] at h
              rcases hpi : parseIdentifierRecorded fuel
                  (⟨cb, cc, mac, [], off, sid1, sof, false, errs⟩ : PPState) with
                _ | ⟨ident, offsets, s2⟩
              · rw [hpi] at h; simp at h
              · rw [hpi] at h
                dsimp only at h
                rcases hte : tryExpandingMacroDef fuel ident Scn.pps s2 none none with
                  _ | ⟨res, scn3, s3⟩
                · rw [hte] at h; simp at h
                · rw [hte] at h
                  rcases res with sid | _ | e
                  · exact ih (ppEnterSection sid s3) c s' h hc
                  · exact ih { s3 with identScanner := offsets } c s' h hc
                  · exact ih (ppReport s3 e) c s' h hc
            · rw [if_neg hst] at h
              rcases hp : ppsGet (⟨cb, cc, mac, [], off, sid1, sof, false, errs⟩ : PPState)
                with ⟨ch, s2⟩
              rw [hp] at h
              dsimp only at h
              rcases Option.some.inj h with h2
              obtain ⟨hc1, hs1⟩ := Prod.mk.inj h2
              rw [← hc1] at hc
              dsimp only at hc
              have hnn : 0 ≤ ch := by
                have h0 := ppsGet_fst_nonneg
                  (⟨cb, cc, mac, [], off, sid1, sof, false, errs⟩ : PPState)
                  (by exact Bool.of_not_eq_true hre)
                rw [hp] at h0
                exact h0
              omega
    · dsimp only at h
      rcases hu : utf8 cb.buf o with ⟨cp, l⟩
      rw [hu] at h
      dsimp only at h
      rcases Option.some.inj h with h2
      obtain ⟨hc1, hs1⟩ := Prod.mk.inj h2
      rw [← hc1] at hc
      simp at hc

/-- C10: lookahead coherence of the public `Preprocessor` wrapper: `peek`
is idempotent (a second `peek` with no intervening `get` returns the same
character and leaves the state fixed); after a non-EOF `peek` the
character sits in `lookaheadBuffer` and the next `get`, with any fuel,
returns exactly it and consumes it; and `reachedEndOfInput` answers
`true` exactly when `peek` returns the EOF character. -/
theorem claim_C10_lookahead_coherence :
    (∀ (fuel : Nat) (p : Preprocessor) (c : PPCharacter) (p2 : Preprocessor),
        Preprocessor.peek (fuel + 1) p = some (c, p2) →
        Preprocessor.peek (fuel + 1) p2 = some (c, p2)) ∧
    (∀ (fuel fuel2 : Nat) (p : Preprocessor) (c : PPCharacter) (p2 : Preprocessor),
        Preprocessor.peek fuel p = some (c, p2) → c.codepoint ≠ -1 →
        p2.lookaheadBuffer = some c ∧
        Preprocessor.get fuel2 p2 = some (c, { p2 with lookaheadBuffer := none })) ∧
    (∀ (fuel : Nat) (p : Preprocessor) (c : PPCharacter) (p2 : Preprocessor),
        Preprocessor.peek fuel p = some (c, p2) →
        (Preprocessor.reachedEndOfInput fuel p = some (true, p2) ↔ c.codepoint = -1)) := by
  refine ⟨?_, ?_, ?_⟩
  · intro fuel p c p2 h
    obtain ⟨s, buf⟩ := p
    rw [Preprocessor.peek.eq_def] at h
    dsimp only at h
    rcases buf with _ | c0
    · dsimp only at h
      rcases hg : ppGet (fuel + 1) s with _ | ⟨c1, s2⟩
      · rw [hg] at h; simp at h
      · rw [hg] at h
        dsimp only at h
        by_cases hc1 : c1.codepoint = -1
        · rw [if_pos hc1] at h
          rcases Option.some.inj h with h2
          obtain ⟨hceq, hpeq⟩ := Prod.mk.inj h2
          obtain ⟨he, hisc, hre⟩ := ppGet_eof_inv (fuel + 1) s c1 s2 hg hc1
          rw [← hpeq, ← hceq]
          rw [Preprocessor.peek.eq_def]
          dsimp only
          rw [ppGet_eof_stable fuel s2 hisc hre]
          dsimp only
          rw [if_pos (show PPCharacter.eof.codepoint = -1 from rfl)]
          rw [he]
        · rw [if_neg hc1] at h
          rcases Option.some.inj h with h2
          obtain ⟨hceq, hpeq⟩ := Prod.mk.inj h2
          rw [← hpeq, ← hceq]
          rfl
    · dsimp only at h
      rcases Option.some.inj h with h2
      obtain ⟨hceq, hpeq⟩ := Prod.mk.inj h2
      rw [← hpeq, ← hceq]
      rfl
  · intro fuel fuel2 p c p2 h hne
    obtain ⟨s, buf⟩ := p
    rw [Preprocessor.peek.eq_def] at h
    dsimp only at h
    rcases buf with _ | c0
    · dsimp only at h
      rcases hg : ppGet fuel s with _ | ⟨c1, s2⟩
      · rw [hg] at h; simp at h
      · rw [hg] at h
        dsimp only at h
        by_cases hc1 : c1.codepoint = -1
        · rw [if_pos hc1] at h
          rcases Option.some.inj h with h2
          obtain ⟨hceq, hpeq⟩ := Prod.mk.inj h2
          rw [← hceq] at hne
          exact absurd hc1 hne
        · rw [if_neg hc1] at h
          rcases Option.some.inj h with h2
          obtain ⟨hceq, hpeq⟩ := Prod.mk.inj h2
          rw [← hpeq, ← hceq]
          exact ⟨rfl, rfl⟩
    · dsimp only at h
      rcases Option.some.inj h with h2
      obtain ⟨hceq, hpeq⟩ := Prod.mk.inj h2
      rw [← hpeq, ← hceq]
      exact ⟨rfl, rfl⟩
  · intro fuel p c p2 h
    unfold Preprocessor.reachedEndOfInput
    rw [h]
    simp

/-- A wrapper over the one-byte source `;`, before any read. -/
def c10pre : Preprocessor := ⟨ppInitState (strBytes ";") false, none⟩

/-- The same wrapper after peeking the `;` (the impl has consumed the
byte, and the character waits in the lookahead buffer). -/
def c10post : Preprocessor :=
  ⟨⟨CodeBuffer.ofSource (strBytes ";"), [], [], [], 1, [], [], false, []⟩, some ⟨59, 1⟩⟩

/-- Witness for C10 at the concrete one-byte source `;`: the first peek
returns the `;`, a repeated peek is identical, get returns the buffered
character and consumes it, and reachedEndOfInput is not `true` here. -/
theorem claim_C10_witness :
    Preprocessor.peek 5 c10pre = some (⟨59, 1⟩, c10post) ∧
    Preprocessor.peek 5 c10post = some (⟨59, 1⟩, c10post) ∧
    (c10post.lookaheadBuffer = some ⟨59, 1⟩ ∧
      Preprocessor.get 3 c10post = some (⟨59, 1⟩, { c10post with lookaheadBuffer := none })) ∧
    (Preprocessor.reachedEndOfInput 5 c10pre = some (true, c10post) ↔
      ((⟨59, 1⟩ : PPCharacter).codepoint = -1)) := by
  refine ⟨rfl, ?_, ?_, ?_⟩
  · exact claim_C10_lookahead_coherence.1 4 c10pre ⟨59, 1⟩ c10post rfl
  · exact claim_C10_lookahead_coherence.2.1 5 3 c10pre ⟨59, 1⟩ c10post rfl (by decide)
  · exact claim_C10_lookahead_coherence.2.2 5 c10pre ⟨59, 1⟩ c10post rfl
